import Mathlib

/-!
Verification of the content-normalization pipeline and REST-client helpers of a
headless-CMS blog front end.  The TypeScript sources (`src/lib/wordpress.ts`,
`src/lib/wordpress-publish.ts`) are shallowly embedded: each global
regex-replace pass of `processContent` and `getExcerptText` becomes an
executable scanner over `List Char`, and the stateless fetch wrappers become
functions over an explicit fetch-outcome datatype.
-/

namespace WP

/-- The backtick character (used pervasively by the Markdown passes). -/
def btick : Char := Char.ofNat 96

/-- Whitespace class of JavaScript regex `\s`, restricted to its ASCII members
(space, tab, line feed, vertical tab, form feed, carriage return). -/
def isJsWs (c : Char) : Bool :=
  c = ' ' || c = '\t' || c = '\n' || c = Char.ofNat 11 || c = Char.ofNat 12 || c = '\r'

/-- Decimal digit test, as in regex `\d`. -/
def isDigitC (c : Char) : Bool :=
  '0' ≤ c && c ≤ '9'

/-- Word character test, as in regex `\w`. -/
def isWordC (c : Char) : Bool :=
  isDigitC c || ('a' ≤ c && c ≤ 'z') || ('A' ≤ c && c ≤ 'Z') || c = '_'

/-- JavaScript `String.prototype.trim` (over the ASCII whitespace class). -/
def jsTrim (l : List Char) : List Char :=
  ((l.dropWhile isJsWs).reverse.dropWhile isJsWs).reverse

/-- Find the first occurrence of `pat` in `l`; return the part before it and
the part after it.  Models the split performed by a lazy regex group followed
by the literal `pat`. -/
def splitFirst (pat : List Char) : List Char → Option (List Char × List Char)
  | [] => if pat.isEmpty then some ([], []) else none
  | c :: rest =>
    if pat.isPrefixOf (c :: rest) then some ([], (c :: rest).drop pat.length)
    else (splitFirst pat rest).map (fun p => (c :: p.1, p.2))

/-- Whether `pat` occurs in `l` as a contiguous substring. -/
def hasSub (pat l : List Char) : Bool :=
  (splitFirst pat l).isSome

/-- Models regex `(.+?)` followed by the literal `pat`: the shortest nonempty
newline-free prefix of the input after which `pat` occurs; returns the captured
prefix and the input remaining after `pat`. -/
def lazyTo (pat : List Char) : List Char → Option (List Char × List Char)
  | [] => none
  | c :: rest =>
    if c = '\n' then none
    else if pat.isPrefixOf rest then some ([c], rest.drop pat.length)
    else (lazyTo pat rest).map (fun p => (c :: p.1, p.2))

/-- One stateful global-replace engine shared by all passes, mirroring the
scan of a JavaScript `String.replace(/…/g, …)`: at each position, either the
step function matches — emitting a replacement, resuming after the consumed
text, and updating the scan state — or the scanner emits one character and
advances.  Fuel bounds the recursion; one unit per consumed character
suffices because every match consumes at least one character. -/
def replSt (step : σ → List Char → Option (List Char × List Char × σ))
    (upd : σ → Char → σ) : Nat → σ → List Char → List Char × σ
  | 0, s, l => (l, s)
  | _ + 1, s, [] => ([], s)
  | f + 1, s, c :: rest =>
    match step s (c :: rest) with
    | some (rep, after, s') =>
      let r := replSt step upd f s' after
      (rep ++ r.1, r.2)
    | none =>
      let r := replSt step upd f (upd s c) rest
      (c :: r.1, r.2)

/-- Run a replace pass over a whole string, with fuel equal to its length. -/
def runRepl (step : σ → List Char → Option (List Char × List Char × σ))
    (upd : σ → Char → σ) (s0 : σ) (l : List Char) : List Char × σ :=
  replSt step upd l.length s0 l

/-- Placeholder token `__CODE_BLOCK_i__` emitted by the protection pass. -/
def placeholder (n : Nat) : List Char :=
  "__CODE_BLOCK_".data ++ (Nat.repr n).data ++ "__".data

/-- Step of the inline-code protection pass: regex `` `([^`]+)` `` with a
callback that records the captured span and emits an indexed placeholder. -/
def inlineStep (acc : List (List Char)) (l : List Char) :
    Option (List Char × List Char × List (List Char)) :=
  match l with
  | [] => none
  | c :: rest =>
    if c = btick then
      match rest.takeWhile (fun d => d ≠ btick), rest.dropWhile (fun d => d ≠ btick) with
      | [], _ => none
      | _, [] => none
      | content, _ :: after => some (placeholder acc.length, after, acc ++ [content])
    else none

/-- The inline-code protection pass: returns the masked text and the table of
extracted spans, in extraction order. -/
def extractInline (l : List Char) : List Char × List (List Char) :=
  runRepl inlineStep (fun s _ => s) [] l

/-- Match regex `<p>LIT\s*(.+?)</p>` at the head of `l`: the capture is
nonempty and newline-free; the greedy `\s*` backtracks one character into the
capture when the capture would otherwise be empty.  Returns the capture and
the remainder after `</p>`. -/
def pTagMatch (lit : List Char) (l : List Char) : Option (List Char × List Char) :=
  if (('<' :: 'p' :: '>' :: lit) : List Char).isPrefixOf l then
    let m := l.drop (3 + lit.length)
    let ws := m.takeWhile isJsWs
    let body := m.dropWhile isJsWs
    if ("</p>".data).isPrefixOf body then
      match ws.getLast? with
      | none => none
      | some c' => if c' = '\n' then none else some ([c'], body.drop 4)
    else
      lazyTo ("</p>".data) body
  else none

/-- Replacement text of the heading pass of level `k`. -/
def headingRep (k : Nat) (content : List Char) : List Char :=
  "<h".data ++ (Nat.repr k).data ++ ">".data ++ content ++
    "</h".data ++ (Nat.repr k).data ++ ">".data

/-- Step of the heading-promotion pass of level `k`:
regex `<p>#{k}\s*(.+?)</p>` replaced by `<hk>$1</hk>`. -/
def headingStep (k : Nat) (_ : Unit) (l : List Char) :
    Option (List Char × List Char × Unit) :=
  (pTagMatch (List.replicate k '#') l).map (fun p => (headingRep k p.1, p.2, ()))

/-- Run a stateless pass over a whole string. -/
def runPass (step : Unit → List Char → Option (List Char × List Char × Unit))
    (l : List Char) : List Char :=
  (runRepl step (fun s _ => s) () l).1

/-- Step of the bold pass: regex `\*\*(.+?)\*\*` replaced by
`<strong>$1</strong>`. -/
def boldStep (_ : Unit) (l : List Char) : Option (List Char × List Char × Unit) :=
  if ('*' :: '*' :: []).isPrefixOf l then
    (lazyTo ('*' :: '*' :: []) (l.drop 2)).map
      (fun p => ("<strong>".data ++ p.1 ++ "</strong>".data, p.2, ()))
  else none

/-- Step of the italic pass: regex `(?<!\*)\*([^*]+)\*(?!\*)` replaced by
`<em>$1</em>`; the state is the previous source character, consulted by the
lookbehind. -/
def italicStep (p : Option Char) (l : List Char) :
    Option (List Char × List Char × Option Char) :=
  match l with
  | [] => none
  | c :: rest =>
    if c = '*' then
      if p = some '*' then none
      else
        match rest.takeWhile (fun d => d ≠ '*'), rest.dropWhile (fun d => d ≠ '*') with
        | [], _ => none
        | _, [] => none
        | content, _ :: after =>
          if after.head? = some '*' then none
          else some ("<em>".data ++ content ++ "</em>".data, after, some '*')
    else none

/-- Numeric value of a decimal digit string, as `parseInt` computes it. -/
def digitsToNat (ds : List Char) : Nat :=
  ds.foldl (fun a c => 10 * a + (c.toNat - 48)) 0

/-- Step of the placeholder-restoration pass: regex `__CODE_BLOCK_(\d+)__`
replaced through the span table; an out-of-range index yields the text
`undefined`, as interpolating an absent array element does. -/
def restoreStep (tbl : List (List Char)) (_ : Unit) (l : List Char) :
    Option (List Char × List Char × Unit) :=
  if ("__CODE_BLOCK_".data).isPrefixOf l then
    let m := l.drop 13
    let ds := m.takeWhile isDigitC
    let m2 := m.dropWhile isDigitC
    if ds.isEmpty then none
    else if ("__".data).isPrefixOf m2 then
      some ("<code>".data ++ ((tbl.get? (digitsToNat ds)).getD ("undefined".data)) ++
        "</code>".data, m2.drop 2, ())
    else none
  else none

/-- The restoration pass over a whole string. -/
def restorePass (tbl : List (List Char)) (l : List Char) : List Char :=
  (runRepl (restoreStep tbl) (fun s _ => s) () l).1

/-- Step of the fence-unwrap passes: regex `<p>(FFF[\s\S]*?FFF)</p>` replaced
by `$1`, where `FFF` is a triple of the fence character `fc` (backtick or
tilde). -/
def pFenceStep (fc : Char) (_ : Unit) (l : List Char) :
    Option (List Char × List Char × Unit) :=
  if (('<' :: 'p' :: '>' :: fc :: fc :: fc :: []) : List Char).isPrefixOf l then
    match splitFirst (fc :: fc :: fc :: '<' :: '/' :: 'p' :: '>' :: []) (l.drop 6) with
    | none => none
    | some (content, after) =>
      some ((fc :: fc :: fc :: []) ++ content ++ (fc :: fc :: fc :: []), after, ())
  else none

/-- Expand each character through `f` (character-for-string substitution). -/
def concatMapChar (f : Char → List Char) : List Char → List Char
  | [] => []
  | c :: rest => f c ++ concatMapChar f rest

/-- The three sequential entity replacements applied to fenced-block text:
`&` then `<` then `>`. -/
def escapeHtml (l : List Char) : List Char :=
  concatMapChar (fun c => if c = '>' then "&gt;".data else [c])
    (concatMapChar (fun c => if c = '<' then "&lt;".data else [c])
      (concatMapChar (fun c => if c = '&' then "&amp;".data else [c]) l))

/-- Step of the fenced-code-block conversion: regex
``` ```(\w+)?\n?([\s\S]*?)``` ``` replaced by a `<pre><code>` block with a
language class, the body trimmed and HTML-escaped. -/
def fenceStep (_ : Unit) (l : List Char) : Option (List Char × List Char × Unit) :=
  if ((btick :: btick :: btick :: []) : List Char).isPrefixOf l then
    let m := l.drop 3
    let lang := m.takeWhile isWordC
    let m2 := m.drop lang.length
    let m3 := if m2.head? = some '\n' then m2.tail else m2
    match splitFirst (btick :: btick :: btick :: []) m3 with
    | none => none
    | some (content, after) =>
      let language := if lang.isEmpty then "plaintext".data else lang
      some ("<pre><code class=\"language-".data ++ language ++ "\">".data ++
        escapeHtml (jsTrim content) ++ "</code></pre>".data, after, ())
  else none

/-- Step of the blockquote pass: regex `<p>&gt;\s*(.+?)</p>` replaced by
`<blockquote><p>$1</p></blockquote>`. -/
def bqStep (_ : Unit) (l : List Char) : Option (List Char × List Char × Unit) :=
  (pTagMatch ("&gt;".data) l).map
    (fun p => ("<blockquote><p>".data ++ p.1 ++ "</p></blockquote>".data, p.2, ()))

/-- Character class `[-*_]` of the horizontal-rule pass. -/
def isHrC (c : Char) : Bool := c = '-' || c = '*' || c = '_'

/-- Step of the horizontal-rule pass: regex `<p>[-*_]{3,}</p>` replaced by
`<hr>`. -/
def hrStep (_ : Unit) (l : List Char) : Option (List Char × List Char × Unit) :=
  match l with
  | '<' :: 'p' :: '>' :: m =>
    let run := m.takeWhile isHrC
    let m2 := m.dropWhile isHrC
    if 3 ≤ run.length && ("</p>".data).isPrefixOf m2 then
      some ("<hr>".data, m2.drop 4, ())
    else none
  | _ => none

/-- Remove every `<p>` and `</p>` tag, as regex `<\/?p>` with the global flag
does. -/
def stripPTags : List Char → List Char
  | '<' :: '/' :: 'p' :: '>' :: rest => stripPTags rest
  | '<' :: 'p' :: '>' :: rest => stripPTags rest
  | c :: rest => c :: stripPTags rest
  | [] => []

/-- Match a `<br\s*\/?>` tag at the head of `l`, returning the remainder. -/
def brMatch (l : List Char) : Option (List Char) :=
  match l with
  | '<' :: 'b' :: 'r' :: rest =>
    match rest.dropWhile isJsWs with
    | '/' :: '>' :: a => some a
    | '>' :: a => some a
    | _ => none
  | _ => none

/-- Split on `<br\s*\/?>` tags and newlines (fueled scan). -/
def splitBrF : Nat → List Char → List (List Char)
  | 0, l => [l]
  | _ + 1, [] => [[]]
  | f + 1, c :: rest =>
    if c = '\n' then [] :: splitBrF f rest
    else
      match brMatch (c :: rest) with
      | some a => [] :: splitBrF f a
      | none =>
        match splitBrF f rest with
        | [] => [[c]]
        | ln :: ls => (c :: ln) :: ls

/-- Split a line-like string on `<br>` tags and newlines, as
`split(/<br\s*\/?>|\n/)` does. -/
def splitBr (l : List Char) : List (List Char) := splitBrF l.length l

/-- Test regex `^\d+\.\s+` against a line. -/
def olTest (ln : List Char) : Bool :=
  match ln.takeWhile isDigitC, ln.dropWhile isDigitC with
  | [], _ => false
  | _, '.' :: c :: _ => isJsWs c
  | _, _ => false

/-- Remove the `^\d+\.\s+` prefix from a line (identity when absent). -/
def olStrip (ln : List Char) : List Char :=
  if olTest ln then ((ln.dropWhile isDigitC).tail).dropWhile isJsWs else ln

/-- Test regex `^[-*]\s+` against a line. -/
def ulTest (ln : List Char) : Bool :=
  match ln with
  | c :: d :: _ => (c = '-' || c = '*') && isJsWs d
  | _ => false

/-- Remove the `^[-*]\s+` prefix from a line (identity when absent). -/
def ulStrip (ln : List Char) : List Char :=
  if ulTest ln then ln.tail.dropWhile isJsWs else ln

/-- Wrap a stripped line in `<li>` tags. -/
def liWrap (strip : List Char → List Char) (ln : List Char) : List Char :=
  "<li>".data ++ strip ln ++ "</li>".data

/-- Join a list of strings with newlines, as `Array.prototype.join('\n')`
does. -/
def joinNl : List (List Char) → List Char
  | [] => []
  | [x] => x
  | x :: y :: rest => x ++ '\n' :: joinNl (y :: rest)

/-- The list-pass replacement callback: strip paragraph tags, split into
lines, trim each, keep the lines matching the item prefix, wrap each in
`<li>`, join with newlines; when the joined item text is empty, return the
matched paragraph unchanged. -/
def listReplacer (test : List Char → Bool) (strip : List Char → List Char)
    (opening closing : List Char) (m : List Char) : List Char :=
  let lines := (splitBr (stripPTags m)).map jsTrim
  let joined := joinNl ((lines.filter test).map (liWrap strip))
  if 0 < joined.length then opening ++ joined ++ closing else m

/-- The ordered-list callback as instantiated in its pass. -/
def olReplacer (m : List Char) : List Char :=
  listReplacer olTest olStrip ("<ol>".data) ("</ol>".data) m

/-- The unordered-list callback as instantiated in its pass. -/
def ulReplacer (m : List Char) : List Char :=
  listReplacer ulTest ulStrip ("<ul>".data) ("</ul>".data) m

/-- Step of the ordered-list pass: regex `<p>(\d+\.\s+[\s\S]*?)</p>` with the
`olReplacer` callback. -/
def olStep (_ : Unit) (l : List Char) : Option (List Char × List Char × Unit) :=
  match l with
  | '<' :: 'p' :: '>' :: m =>
    match m.takeWhile isDigitC, m.dropWhile isDigitC with
    | [], _ => none
    | ds, '.' :: m2 =>
      if (match m2 with | c :: _ => isJsWs c | [] => false) then
        match splitFirst ("</p>".data) m2 with
        | none => none
        | some (inner, after) =>
          some (olReplacer ("<p>".data ++ ds ++ '.' :: inner ++ "</p>".data), after, ())
      else none
    | _, _ => none
  | _ => none

/-- Step of the unordered-list pass: regex `<p>([-*]\s+[\s\S]*?)</p>` with the
`ulReplacer` callback. -/
def ulStep (_ : Unit) (l : List Char) : Option (List Char × List Char × Unit) :=
  match l with
  | '<' :: 'p' :: '>' :: c :: m2 =>
    if (c = '-' || c = '*') && (match m2 with | d :: _ => isJsWs d | [] => false) then
      match splitFirst ("</p>".data) m2 with
      | none => none
      | some (inner, after) =>
        some (ulReplacer ("<p>".data ++ c :: inner ++ "</p>".data), after, ())
    else none
  | _ => none

/-- The six heading-promotion passes, longest marker first. -/
def headingPasses (l : List Char) : List Char :=
  runPass (headingStep 1) (runPass (headingStep 2) (runPass (headingStep 3)
    (runPass (headingStep 4) (runPass (headingStep 5) (runPass (headingStep 6) l)))))

/-- The bold pass over a whole string. -/
def boldPass (l : List Char) : List Char := runPass boldStep l

/-- The italic pass over a whole string (initial lookbehind state: start of
string, no previous character). -/
def italicPass (l : List Char) : List Char :=
  (runRepl italicStep (fun _ c => some c) none l).1

/-- The first half of the pipeline: protect inline code, promote headings,
rewrite emphasis, then restore the protected spans as `<code>` elements. -/
def inlineProtected (l : List Char) : List Char :=
  let e := extractInline l
  restorePass e.2 (italicPass (boldPass (headingPasses e.1)))

/-- The full content-normalization pipeline of `processContent`, pass for
pass in source order. -/
def processContentL (l : List Char) : List Char :=
  runPass ulStep (runPass olStep (runPass hrStep (runPass bqStep (runPass fenceStep
    (runPass (pFenceStep '~') (runPass (pFenceStep btick) (inlineProtected l)))))))

/-- `processContent` over Lean strings. -/
def processContent (s : String) : String := ⟨processContentL s.data⟩

/-- Step of a plain literal replacement pass (regex with no metacharacters,
global flag). -/
def litStep (pat rep : List Char) (_ : Unit) (l : List Char) :
    Option (List Char × List Char × Unit) :=
  if pat.isEmpty then none
  else if pat.isPrefixOf l then some (rep, l.drop pat.length, ()) else none

/-- Step of the numeric-entity removal pass: regex `&#\d+;` deleted. -/
def numEntStep (_ : Unit) (l : List Char) : Option (List Char × List Char × Unit) :=
  match l with
  | '&' :: '#' :: rest =>
    match rest.takeWhile isDigitC, rest.dropWhile isDigitC with
    | [], _ => none
    | _, ';' :: after => some ([], after, ())
    | _, _ => none
  | _ => none

/-- Step of the tag-stripping pass: regex `<[^>]+>` deleted. -/
def tagStep (_ : Unit) (l : List Char) : Option (List Char × List Char × Unit) :=
  match l with
  | '<' :: rest =>
    match rest.takeWhile (fun d => d ≠ '>'), rest.dropWhile (fun d => d ≠ '>') with
    | [], _ => none
    | _, [] => none
    | _, _ :: after => some ([], after, ())
  | _ => none

/-- Step of the Markdown-header stripping pass: regex `^#{1,6}\s+` with the
multiline flag, deleted.  The state is the previous source character: the
`^` anchor holds at the string start and after a newline. -/
def mdHeaderStep (p : Option Char) (l : List Char) :
    Option (List Char × List Char × Option Char) :=
  if p = none || p = some '\n' then
    match l with
    | '#' :: _ =>
      let hs := l.takeWhile (fun d => d = '#')
      let r := l.dropWhile (fun d => d = '#')
      if hs.length ≤ 6 then
        match r.takeWhile isJsWs, r.dropWhile isJsWs with
        | [], _ => none
        | ws, after => some ([], after, some (ws.getLast?.getD '#'))
      else none
    | _ => none
  else none

/-- Step of the bold-stripping pass: regex `\*\*(.+?)\*\*` replaced by `$1`. -/
def boldStripStep (_ : Unit) (l : List Char) : Option (List Char × List Char × Unit) :=
  match l with
  | '*' :: '*' :: rest => (lazyTo ('*' :: '*' :: []) rest).map (fun p => (p.1, p.2, ()))
  | _ => none

/-- Step of the italic-stripping pass: regex `\*(.+?)\*` replaced by `$1`. -/
def italStripStep (_ : Unit) (l : List Char) : Option (List Char × List Char × Unit) :=
  match l with
  | '*' :: rest => (lazyTo ('*' :: []) rest).map (fun p => (p.1, p.2, ()))
  | _ => none

/-- Step of the inline-code stripping pass: regex `` `([^`]+)` `` replaced by
`$1`. -/
def codeStripStep (_ : Unit) (l : List Char) : Option (List Char × List Char × Unit) :=
  match l with
  | [] => none
  | c :: rest =>
    if c = btick then
      match rest.takeWhile (fun d => d ≠ btick), rest.dropWhile (fun d => d ≠ btick) with
      | [], _ => none
      | _, [] => none
      | content, _ :: after => some (content, after, ())
    else none

/-- Step of the link-stripping pass: regex `\[([^\]]+)\]\([^)]+\)` replaced by
the link text `$1`. -/
def linkStripStep (_ : Unit) (l : List Char) : Option (List Char × List Char × Unit) :=
  match l with
  | '[' :: rest =>
    match rest.takeWhile (fun d => d ≠ ']'), rest.dropWhile (fun d => d ≠ ']') with
    | [], _ => none
    | txt, ']' :: '(' :: r2 =>
      match r2.takeWhile (fun d => d ≠ ')'), r2.dropWhile (fun d => d ≠ ')') with
      | [], _ => none
      | _, [] => none
      | _, _ :: after => some (txt, after, ())
    | _, _ => none
  | _ => none

/-- The cleaning chain of `getExcerptText`: entity decoding, tag stripping,
Markdown stripping, final trim — pass for pass in source order. -/
def cleanExcerptL (l : List Char) : List Char :=
  let a1 := runPass (litStep ("&#8211;".data) ("–".data)) l
  let a2 := runPass (litStep ("&#8212;".data) ("—".data)) a1
  let a3 := runPass numEntStep a2
  let a4 := runPass (litStep ("&amp;".data) ("&".data)) a3
  let a5 := runPass (litStep ("&nbsp;".data) (" ".data)) a4
  let a6 := runPass tagStep a5
  let a7 := (runRepl mdHeaderStep (fun _ c => some c) none a6).1
  let a8 := runPass boldStripStep a7
  let a9 := runPass italStripStep a8
  let a10 := runPass codeStripStep a9
  let a11 := runPass linkStripStep a10
  jsTrim a11

/-- The cleaned excerpt text over Lean strings. -/
def cleanExcerpt (s : String) : String := ⟨cleanExcerptL s.data⟩

/-- `getExcerptText`: clean, then return verbatim when within `maxLen`,
otherwise cut to `maxLen` characters, trim, and append an ellipsis. -/
def getExcerptText (maxLen : Nat) (e : String) : String :=
  let text := cleanExcerptL e.data
  if text.length ≤ maxLen then ⟨text⟩
  else ⟨jsTrim (text.take maxLen) ++ "...".data⟩

/-- `getExcerptText` at the default maximum length of the source. -/
def getExcerptTextDefault (e : String) : String := getExcerptText 160 e

/-- Minimal view of a post payload: the fields the read helpers use. -/
structure WPPostF where
  id : Nat
  slug : String
  deriving Repr, DecidableEq

/-- Outcome of one `fetch` call: either the promise rejects, or a response
arrives with a success flag, status information and a parsed body. -/
inductive FetchOutcome (α : Type) where
  | reject (msg : String)
  | response (ok : Bool) (status : Nat) (statusText : String) (body : α)

/-- `fetchAPI`: raises (`Except.error`) on a rejected fetch or a non-success
response, otherwise yields the parsed body. -/
def fetchAPI : FetchOutcome α → Except String α
  | .reject m => .error m
  | .response ok st stx b =>
    if ok then .ok b
    else .error ("WordPress API error: " ++ Nat.repr st ++ " " ++ stx)

/-- `getAllPostSlugs`: the posts fetch wrapped in try/catch — any error is
swallowed (after a console warning, not modelled) and becomes the empty
list. -/
def getAllPostSlugs (o : FetchOutcome (List WPPostF)) : Except String (List String) :=
  match fetchAPI o with
  | .error _ => .ok []
  | .ok posts => .ok (posts.map (fun p => p.slug))

/-- `getPostBySlug`: first element of the result list, or null (`posts[0] ||
null`; list elements are objects, hence truthy). -/
def getPostBySlug (o : FetchOutcome (List WPPostF)) : Except String (Option WPPostF) :=
  (fetchAPI o).map (fun posts => posts.head?)

/-- ASCII model of `String.prototype.toLowerCase`. -/
def jsToLower (s : String) : String := ⟨s.data.map Char.toLower⟩

/-- Category payload of the publishing client. -/
structure PubCategory where
  id : Nat
  name : String
  slug : String
  deriving Repr, DecidableEq

/-- `getOrCreateCategory` over an explicit category list (the result of
`getCategories`): case-insensitive name lookup, falling back to creation.
The pair records the returned id and whether a creation call was issued;
`created` stands for the category the backend would mint. -/
def getOrCreateCategory (cats : List PubCategory) (created : PubCategory)
    (name : String) : Nat × Bool :=
  match cats.find? (fun c => jsToLower c.name == jsToLower name) with
  | some c => (c.id, false)
  | none => (created.id, true)

/-- The option object accepted by `updatePost`: the mandatory id plus every
optional `CreatePostOptions` field. -/
structure UpdatePostOptions where
  id : Nat
  title : Option String
  content : Option String
  excerpt : Option String
  status : Option String
  categories : Option (List Nat)
  tags : Option (List Nat)
  featured_media : Option Nat

/-- String escaping of `JSON.stringify` for the characters that can need it
in these payloads. -/
def jsonEscape (s : String) : String :=
  ⟨concatMapChar (fun c =>
    if c = '"' then '\\' :: '"' :: []
    else if c = '\\' then '\\' :: '\\' :: []
    else if c = '\n' then '\\' :: 'n' :: []
    else [c]) s.data⟩

/-- A JSON string literal. -/
def jsonStr (s : String) : String := "\"" ++ jsonEscape s ++ "\""

/-- A JSON array of numbers. -/
def jsonNatList (l : List Nat) : String :=
  "[" ++ String.intercalate "," (l.map Nat.repr) ++ "]"

/-- `JSON.stringify(data)` for the rest-object `data` of `updatePost`: every
defined field in declaration order; `undefined` fields are skipped. -/
def updateBody (o : UpdatePostOptions) : String :=
  let fields : List String :=
    (o.title.map (fun v => jsonStr "title" ++ ":" ++ jsonStr v)).toList ++
    (o.content.map (fun v => jsonStr "content" ++ ":" ++ jsonStr v)).toList ++
    (o.excerpt.map (fun v => jsonStr "excerpt" ++ ":" ++ jsonStr v)).toList ++
    (o.status.map (fun v => jsonStr "status" ++ ":" ++ jsonStr v)).toList ++
    (o.categories.map (fun v => jsonStr "categories" ++ ":" ++ jsonNatList v)).toList ++
    (o.tags.map (fun v => jsonStr "tags" ++ ":" ++ jsonNatList v)).toList ++
    (o.featured_media.map (fun v => jsonStr "featured_media" ++ ":" ++ Nat.repr v)).toList
  "\x7b" ++ String.intercalate "," fields ++ "\x7d"

/-- The request a publishing-client call hands to `wpFetch`. -/
structure WPRequest where
  endpoint : String
  method : String
  body : String
  deriving Repr, DecidableEq

/-- `updatePost`: POST to `posts/:id` with the serialized rest-object as
body. -/
def updatePost (o : UpdatePostOptions) : WPRequest :=
  { endpoint := "posts/" ++ Nat.repr o.id, method := "POST", body := updateBody o }

/-- `publishPost`: delegate to `updatePost` with only the id and a status of
`publish`. -/
def publishPost (id : Nat) : WPRequest :=
  updatePost { id := id, title := none, content := none, excerpt := none,
               status := some "publish", categories := none, tags := none,
               featured_media := none }

/-- Modelled from the spec: the request `publishPost` is specified to issue —
the endpoint `posts/:id`, the POST method, and a body containing only a
status of `publish`. -/
def publishPostSpec (id : Nat) : WPRequest :=
  { endpoint := "posts/" ++ Nat.repr id, method := "POST",
    body := "\x7b\"status\":\"publish\"\x7d" }

/-- A concrete excerpt whose cleaned text has 163 characters, the 160th of
which is a space. -/
def exC3 : String := ⟨List.replicate 159 'a' ++ " bcd".data⟩

/-! ### Engine lemmas -/

theorem replSt_nil (step : σ → List Char → Option (List Char × List Char × σ))
    (upd : σ → Char → σ) (f : Nat) (s : σ) :
    replSt step upd f s [] = ([], s) := by
  cases f <;> rfl

theorem replSt_cons_none {step : σ → List Char → Option (List Char × List Char × σ)}
    {upd : σ → Char → σ} {s : σ} {c : Char} {rest : List Char}
    (h : step s (c :: rest) = none) (f : Nat) :
    replSt step upd (f + 1) s (c :: rest) =
      ((c :: (replSt step upd f (upd s c) rest).1),
        (replSt step upd f (upd s c) rest).2) := by
  simp [replSt, h]

theorem replSt_cons_some {step : σ → List Char → Option (List Char × List Char × σ)}
    {upd : σ → Char → σ} {s s' : σ} {c : Char} {rest rep after : List Char}
    (h : step s (c :: rest) = some (rep, after, s')) (f : Nat) :
    replSt step upd (f + 1) s (c :: rest) =
      ((rep ++ (replSt step upd f s' after).1), (replSt step upd f s' after).2) := by
  simp [replSt, h]

/-- Walking a segment none of whose characters can start a match: the segment
is emitted verbatim and scanning continues after it, the state having been
folded over the skipped characters. -/
theorem replSt_seg {step : σ → List Char → Option (List Char × List Char × σ)}
    {upd : σ → Char → σ} (u : List Char)
    (hu : ∀ c ∈ u, ∀ (s : σ) (r : List Char), step s (c :: r) = none) :
    ∀ (n : Nat) (s : σ) (B : List Char),
      replSt step upd (u.length + n) s (u ++ B) =
        (((u ++ (replSt step upd n (u.foldl upd s) B).1)),
          (replSt step upd n (u.foldl upd s) B).2) := by
  induction u with
  | nil => intro n s B; simp
  | cons c u ih =>
    intro n s B
    have hc := hu c (List.mem_cons_self c u) s (u ++ B)
    have hrest : ∀ c' ∈ u, ∀ (s : σ) (r : List Char), step s (c' :: r) = none := by
      intro c' hc' s' r; exact hu c' (List.mem_cons_of_mem c hc') s' r
    have : (c :: u).length + n = (u.length + n) + 1 := by
      simp [List.length_cons]; omega
    rw [this]
    rw [show ((c :: u) ++ B) = c :: (u ++ B) from rfl]
    rw [replSt_cons_none hc]
    rw [ih hrest n (upd s c) B]
    simp [List.foldl_cons]

/-- If no character of `l` can start a match, the pass is the identity. -/
theorem replSt_id {step : σ → List Char → Option (List Char × List Char × σ)}
    {upd : σ → Char → σ} (l : List Char)
    (hl : ∀ c ∈ l, ∀ (s : σ) (r : List Char), step s (c :: r) = none)
    (f : Nat) (s : σ) : (replSt step upd f s l).1 = l := by
  induction l generalizing f s with
  | nil => rw [replSt_nil]
  | cons c rest ih =>
    cases f with
    | zero => rfl
    | succ f =>
      rw [replSt_cons_none (hl c (List.mem_cons_self c rest) s rest) f]
      exact congrArg (c :: ·) (ih (fun c' hc' => hl c' (List.mem_cons_of_mem c hc')) f (upd s c))

/-- Identity when every nonempty suffix fails to match, whatever the state. -/
theorem replSt_id_sfx {step : σ → List Char → Option (List Char × List Char × σ)}
    {upd : σ → Char → σ} :
    ∀ (l : List Char),
      (∀ (s' : σ) (v : List Char), v <:+ l → v ≠ [] → step s' v = none) →
      ∀ (f : Nat) (s : σ), (replSt step upd f s l).1 = l := by
  intro l
  induction l with
  | nil => intro _ f s; rw [replSt_nil]
  | cons c rest ih =>
    intro hsfx f s
    cases f with
    | zero => rfl
    | succ f =>
      have hc : step s (c :: rest) = none :=
        hsfx s (c :: rest) (List.suffix_refl _) (by simp)
      rw [replSt_cons_none hc f]
      have : ∀ (s' : σ) (v : List Char), v <:+ rest → v ≠ [] → step s' v = none := by
        intro s' v hv hne
        exact hsfx s' v (hv.trans (List.suffix_cons c rest)) hne
      exact congrArg (c :: ·) (ih this f (upd s c))

/-! ### Prefix and boundary lemmas -/

theorem isPrefixOf_head_ne {a c : Char} (as r : List Char) (h : c ≠ a) :
    (a :: as).isPrefixOf (c :: r) = false := by
  have hb : (a == c) = false := beq_eq_false_iff_ne.mpr (fun he => h he.symm)
  simp [List.isPrefixOf, hb]

theorem isPrefixOf_append_self (p r : List Char) : p.isPrefixOf (p ++ r) = true := by
  simp [List.isPrefixOf_iff_prefix]

/-- The lazy group `(.+?)` stops at the first occurrence of the pattern: when
the pattern's first character occurs nowhere in `b` (nonempty, newline-free),
the capture is exactly `b`. -/
theorem lazyTo_boundary (p0 : Char) (pr b B : List Char) (hb : b ≠ [])
    (hnl : ∀ c ∈ b, c ≠ '\n') (hh : ∀ c ∈ b, c ≠ p0) :
    lazyTo (p0 :: pr) (b ++ (p0 :: pr) ++ B) = some (b, B) := by
  induction b with
  | nil => exact absurd rfl hb
  | cons c b ih =>
    have hc1 : ¬ c = '\n' := hnl c (List.mem_cons_self c b)
    cases b with
    | nil =>
      show lazyTo (p0 :: pr) (c :: ((p0 :: pr) ++ B)) = some ([c], B)
      rw [lazyTo, if_neg hc1, isPrefixOf_append_self]
      simp [List.drop_left]
    | cons d b' =>
      have hd : d ≠ p0 := hh d (by simp)
      have hstep : lazyTo (p0 :: pr) ((d :: b') ++ (p0 :: pr) ++ B) = some (d :: b', B) := by
        refine ih (by simp) ?_ ?_
        · intro x hx; exact hnl x (List.mem_cons_of_mem c hx)
        · intro x hx; exact hh x (List.mem_cons_of_mem c hx)
      show lazyTo (p0 :: pr) (c :: ((d :: b') ++ (p0 :: pr) ++ B)) = some (c :: d :: b', B)
      rw [lazyTo, if_neg hc1]
      rw [show ((d :: b') ++ (p0 :: pr) ++ B) = d :: (b' ++ (p0 :: pr) ++ B) from by simp]
      rw [isPrefixOf_head_ne _ _ hd]
      rw [show d :: (b' ++ (p0 :: pr) ++ B) = ((d :: b') ++ (p0 :: pr) ++ B) from by simp]
      rw [hstep]
      rfl

/-! ### Per-pass non-matching lemmas -/

theorem inlineStep_none (acc : List (List Char)) (c : Char) (r : List Char)
    (h : c ≠ btick) : inlineStep acc (c :: r) = none := by
  simp [inlineStep, h]

theorem pTagMatch_none (lit : List Char) (c : Char) (r : List Char) (h : c ≠ '<') :
    pTagMatch lit (c :: r) = none := by
  rw [pTagMatch, isPrefixOf_head_ne _ _ h]
  simp

theorem headingStep_none (k : Nat) (s : Unit) (c : Char) (r : List Char) (h : c ≠ '<') :
    headingStep k s (c :: r) = none := by
  simp [headingStep, pTagMatch_none _ _ _ h]

theorem boldStep_none (s : Unit) (c : Char) (r : List Char) (h : c ≠ '*') :
    boldStep s (c :: r) = none := by
  rw [boldStep, isPrefixOf_head_ne _ _ h]
  simp

theorem boldStep_none_star (s : Unit) (c : Char) (r : List Char) (h : c ≠ '*') :
    boldStep s ('*' :: c :: r) = none := by
  have hb : ('*' == c) = false := beq_eq_false_iff_ne.mpr (fun he => h he.symm)
  rw [boldStep]
  rw [show (('*' :: '*' :: []) : List Char).isPrefixOf ('*' :: c :: r) = false from by
    simp [List.isPrefixOf, hb]]
  simp

theorem italicStep_none (p : Option Char) (c : Char) (r : List Char) (h : c ≠ '*') :
    italicStep p (c :: r) = none := by
  simp [italicStep, h]

/-! ### Matching-step lemmas -/

theorem boldStep_match (s : Unit) (b tail : List Char) (hb : b ≠ [])
    (hnl : ∀ c ∈ b, c ≠ '\n') (hstar : ∀ c ∈ b, c ≠ '*') :
    boldStep s ('*' :: '*' :: (b ++ ('*' :: '*' :: []) ++ tail)) =
      some ("<strong>".data ++ b ++ "</strong>".data, tail, ()) := by
  rw [boldStep]
  rw [show (('*' :: '*' :: []) : List Char).isPrefixOf
      ('*' :: '*' :: (b ++ ('*' :: '*' :: []) ++ tail)) = true from by
    simp [List.isPrefixOf]]
  rw [if_pos rfl]
  rw [show ('*' :: '*' :: (b ++ ('*' :: '*' :: []) ++ tail)).drop 2 =
      b ++ ('*' :: '*' :: []) ++ tail from rfl]
  rw [lazyTo_boundary '*' ('*' :: []) b tail hb hnl hstar]
  rfl

theorem italicStep_match (p : Option Char) (c : Char) (i' after : List Char)
    (hp : ¬ p = some '*') (hc : c ≠ '*') (hstar : ∀ d ∈ i', d ≠ '*')
    (hafter : ¬ after.head? = some '*') :
    italicStep p ('*' :: ((c :: i') ++ '*' :: after)) =
      some ("<em>".data ++ (c :: i') ++ "</em>".data, after, some '*') := by
  have htk : ((c :: i') ++ '*' :: after).takeWhile (fun d => d ≠ '*') = c :: i' := by
    rw [List.takeWhile_append_of_pos (by
      intro a ha
      rcases List.mem_cons.mp ha with h | h
      · subst h; simp [hc]
      · simp [hstar a h])]
    rw [List.takeWhile_cons_of_neg (by simp)]
    simp
  have hdw : ((c :: i') ++ '*' :: after).dropWhile (fun d => d ≠ '*') = '*' :: after := by
    rw [List.dropWhile_append_of_pos (by
      intro a ha
      rcases List.mem_cons.mp ha with h | h
      · subst h; simp [hc]
      · simp [hstar a h])]
    rw [List.dropWhile_cons_of_neg (by simp)]
  rw [italicStep]
  rw [if_pos rfl, if_neg hp, htk, hdw]
  show (if after.head? = some '*' then none
      else some ("<em>".data ++ (c :: i') ++ "</em>".data, after, some '*')) =
    some ("<em>".data ++ (c :: i') ++ "</em>".data, after, some '*')
  rw [if_neg hafter]

/-- `replSt_seg` specialised to a segment that ends the string. -/
theorem replSt_seg_nil {step : σ → List Char → Option (List Char × List Char × σ)}
    {upd : σ → Char → σ} (u : List Char)
    (hu : ∀ c ∈ u, ∀ (s : σ) (r : List Char), step s (c :: r) = none) (s : σ) :
    replSt step upd u.length s u = (u, u.foldl upd s) := by
  have h := @replSt_seg σ step upd u hu 0 s []
  rw [List.append_nil, Nat.add_zero, replSt_nil] at h
  simpa using h

/-! ### Two-anchor identity walks -/

/-- A pass whose step can only fire on a `<` fails everywhere on a string of
the shape `<u₁<u₂` when it fails at both anchors: the pass is the identity
there. -/
theorem runPass_id_shape (step : Unit → List Char → Option (List Char × List Char × Unit))
    (hhead : ∀ (s : Unit) (c : Char) (r : List Char), c ≠ '<' → step s (c :: r) = none)
    (u₁ u₂ : List Char) (h1 : ∀ c ∈ u₁, c ≠ '<') (h2 : ∀ c ∈ u₂, c ≠ '<')
    (h0 : step () ('<' :: (u₁ ++ '<' :: u₂)) = none)
    (hmid : step () ('<' :: u₂) = none) :
    runPass step ('<' :: (u₁ ++ '<' :: u₂)) = '<' :: (u₁ ++ '<' :: u₂) := by
  have hseg1 : ∀ c ∈ u₁, ∀ (s : Unit) (r : List Char), step s (c :: r) = none :=
    fun c hc s r => hhead s c r (h1 c hc)
  have hseg2 : ∀ c ∈ u₂, ∀ (s : Unit) (r : List Char), step s (c :: r) = none :=
    fun c hc s r => hhead s c r (h2 c hc)
  unfold runPass runRepl
  rw [show ('<' :: (u₁ ++ '<' :: u₂)).length =
      (u₁.length + (u₂.length + 1)) + 1 from by
    simp only [List.length_cons, List.length_append]]
  rw [replSt_cons_none h0]
  rw [replSt_seg u₁ hseg1 (u₂.length + 1) () ('<' :: u₂)]
  rw [replSt_cons_none hmid]
  rw [replSt_seg_nil u₂ hseg2 ()]

/-! ### Family walks for the emphasis passes -/

/-- `replSt_seg` for a final segment, tolerating leftover fuel. -/
theorem replSt_seg_end {step : σ → List Char → Option (List Char × List Char × σ)}
    {upd : σ → Char → σ} (u : List Char)
    (hu : ∀ c ∈ u, ∀ (s : σ) (r : List Char), step s (c :: r) = none)
    (n : Nat) (s : σ) :
    replSt step upd (u.length + n) s u = (u, u.foldl upd s) := by
  have h := @replSt_seg σ step upd u hu n s []
  rw [List.append_nil, replSt_nil] at h
  simpa using h

theorem boldStep_none_star_app (s : Unit) (c : Char) (l r : List Char) (h : c ≠ '*') :
    boldStep s ('*' :: ((c :: l) ++ r)) = none :=
  boldStep_none_star s c (l ++ r) h

/-- The bold pass on a paragraph `<p>**b** and *i* and _u_</p>`: the
double-asterisk span becomes `<strong>`, the single asterisks and the
underscores are untouched. -/
theorem boldPass_family (b i' : List Char) (ic : Char) (hb : b ≠ [])
    (hbnl : ∀ c ∈ b, c ≠ '\n') (hbs : ∀ c ∈ b, c ≠ '*')
    (hic : ic ≠ '*') (his : ∀ c ∈ i', c ≠ '*') :
    boldPass (('<' :: 'p' :: '>' :: '*' :: '*' :: []) ++ b ++
        ('*' :: '*' :: ' ' :: 'a' :: 'n' :: 'd' :: ' ' :: '*' :: []) ++ (ic :: i') ++
        ('*' :: ' ' :: 'a' :: 'n' :: 'd' :: ' ' :: '_' :: 'u' :: '_' ::
          '<' :: '/' :: 'p' :: '>' :: [])) =
      ('<' :: 'p' :: '>' :: '<' :: 's' :: 't' :: 'r' :: 'o' :: 'n' :: 'g' :: '>' :: []) ++
        b ++ ('<' :: '/' :: 's' :: 't' :: 'r' :: 'o' :: 'n' :: 'g' :: '>' ::
          ' ' :: 'a' :: 'n' :: 'd' :: ' ' :: '*' :: []) ++ (ic :: i') ++
        ('*' :: ' ' :: 'a' :: 'n' :: 'd' :: ' ' :: '_' :: 'u' :: '_' ::
          '<' :: '/' :: 'p' :: '>' :: []) := by
  have hseg1 : ∀ c ∈ (['<', 'p', '>'] : List Char), ∀ (s : Unit) (r : List Char),
      boldStep s (c :: r) = none := by
    intro c hc s r
    fin_cases hc <;> exact boldStep_none _ _ _ (by decide)
  have hseg2 : ∀ c ∈ ([' ', 'a', 'n', 'd', ' '] : List Char), ∀ (s : Unit) (r : List Char),
      boldStep s (c :: r) = none := by
    intro c hc s r
    fin_cases hc <;> exact boldStep_none _ _ _ (by decide)
  have hseg3 : ∀ c ∈ ic :: i', ∀ (s : Unit) (r : List Char), boldStep s (c :: r) = none := by
    intro c hc s r
    rcases List.mem_cons.mp hc with h | h
    · exact boldStep_none _ _ _ (h ▸ hic)
    · exact boldStep_none _ _ _ (his c h)
  have hseg4 : ∀ c ∈ ([' ', 'a', 'n', 'd', ' ', '_', 'u', '_', '<', '/', 'p', '>'] : List Char),
      ∀ (s : Unit) (r : List Char), boldStep s (c :: r) = none := by
    intro c hc s r
    fin_cases hc <;> exact boldStep_none _ _ _ (by decide)
  unfold boldPass runPass runRepl
  rw [show (('<' :: 'p' :: '>' :: '*' :: '*' :: []) ++ b ++
      ('*' :: '*' :: ' ' :: 'a' :: 'n' :: 'd' :: ' ' :: '*' :: []) ++ (ic :: i') ++
      ('*' :: ' ' :: 'a' :: 'n' :: 'd' :: ' ' :: '_' :: 'u' :: '_' ::
        '<' :: '/' :: 'p' :: '>' :: [])) =
    (['<', 'p', '>'] : List Char) ++ ('*' :: '*' :: (b ++ ('*' :: '*' :: []) ++
      ([' ', 'a', 'n', 'd', ' '] ++ ('*' :: ((ic :: i') ++
        ('*' :: ' ' :: 'a' :: 'n' :: 'd' :: ' ' :: '_' :: 'u' :: '_' ::
          '<' :: '/' :: 'p' :: '>' :: [])))))) from by simp]
  rw [show ((['<', 'p', '>'] : List Char) ++ ('*' :: '*' :: (b ++ ('*' :: '*' :: []) ++
      ([' ', 'a', 'n', 'd', ' '] ++ ('*' :: ((ic :: i') ++
        ('*' :: ' ' :: 'a' :: 'n' :: 'd' :: ' ' :: '_' :: 'u' :: '_' ::
          '<' :: '/' :: 'p' :: '>' :: []))))))).length =
    (['<', 'p', '>'] : List Char).length +
      ((([' ', 'a', 'n', 'd', ' '] : List Char).length +
        (((ic :: i').length +
          ((([' ', 'a', 'n', 'd', ' ', '_', 'u', '_', '<', '/', 'p', '>'] : List Char).length +
            (3 + b.length)) + 1)) + 1)) + 1) from by
    simp only [List.length_append, List.length_cons, List.length_nil]
    omega]
  rw [replSt_seg (['<', 'p', '>'] : List Char) hseg1]
  rw [replSt_cons_some (boldStep_match ((['<', 'p', '>'] : List Char).foldl (fun s _ => s) ())
    b ([' ', 'a', 'n', 'd', ' '] ++ ('*' :: ((ic :: i') ++
      ('*' :: ' ' :: 'a' :: 'n' :: 'd' :: ' ' :: '_' :: 'u' :: '_' ::
        '<' :: '/' :: 'p' :: '>' :: [])))) hb hbnl hbs)]
  rw [replSt_seg ([' ', 'a', 'n', 'd', ' '] : List Char) hseg2]
  rw [replSt_cons_none (boldStep_none_star_app _ ic i'
    ('*' :: ' ' :: 'a' :: 'n' :: 'd' :: ' ' :: '_' :: 'u' :: '_' ::
      '<' :: '/' :: 'p' :: '>' :: []) hic)]
  rw [replSt_seg (ic :: i') hseg3]
  rw [replSt_cons_none (boldStep_none_star _ ' '
    ('a' :: 'n' :: 'd' :: ' ' :: '_' :: 'u' :: '_' :: '<' :: '/' :: 'p' :: '>' :: [])
    (by decide))]
  rw [replSt_seg_end ([' ', 'a', 'n', 'd', ' ', '_', 'u', '_', '<', '/', 'p', '>'] : List Char)
    hseg4]
  simp

/-- The italic pass on the bold pass's output: the single-asterisk span
becomes `<em>`; the `<strong>` element, the span contents and the underscores
are untouched. -/
theorem italicPass_family (b i' : List Char) (ic : Char)
    (hbs : ∀ c ∈ b, c ≠ '*') (hic : ic ≠ '*') (his : ∀ c ∈ i', c ≠ '*') :
    italicPass (('<' :: 'p' :: '>' :: '<' :: 's' :: 't' :: 'r' :: 'o' :: 'n' :: 'g' :: '>' :: []) ++
        b ++ ('<' :: '/' :: 's' :: 't' :: 'r' :: 'o' :: 'n' :: 'g' :: '>' ::
          ' ' :: 'a' :: 'n' :: 'd' :: ' ' :: '*' :: []) ++ (ic :: i') ++
        ('*' :: ' ' :: 'a' :: 'n' :: 'd' :: ' ' :: '_' :: 'u' :: '_' ::
          '<' :: '/' :: 'p' :: '>' :: [])) =
      ('<' :: 'p' :: '>' :: '<' :: 's' :: 't' :: 'r' :: 'o' :: 'n' :: 'g' :: '>' :: []) ++
        b ++ ('<' :: '/' :: 's' :: 't' :: 'r' :: 'o' :: 'n' :: 'g' :: '>' ::
          ' ' :: 'a' :: 'n' :: 'd' :: ' ' :: '<' :: 'e' :: 'm' :: '>' :: []) ++ (ic :: i') ++
        ('<' :: '/' :: 'e' :: 'm' :: '>' :: ' ' :: 'a' :: 'n' :: 'd' :: ' ' ::
          '_' :: 'u' :: '_' :: '<' :: '/' :: 'p' :: '>' :: []) := by
  have hseg1 : ∀ c ∈ (['<', 'p', '>', '<', 's', 't', 'r', 'o', 'n', 'g', '>'] : List Char),
      ∀ (s : Option Char) (r : List Char), italicStep s (c :: r) = none := by
    intro c hc s r
    fin_cases hc <;> exact italicStep_none _ _ _ (by decide)
  have hsegb : ∀ c ∈ b, ∀ (s : Option Char) (r : List Char), italicStep s (c :: r) = none :=
    fun c hc s r => italicStep_none _ _ _ (hbs c hc)
  have hseg2 : ∀ c ∈ (['<', '/', 's', 't', 'r', 'o', 'n', 'g', '>', ' ', 'a', 'n', 'd', ' '] :
      List Char), ∀ (s : Option Char) (r : List Char), italicStep s (c :: r) = none := by
    intro c hc s r
    fin_cases hc <;> exact italicStep_none _ _ _ (by decide)
  have hseg3 : ∀ c ∈ ([' ', 'a', 'n', 'd', ' ', '_', 'u', '_', '<', '/', 'p', '>'] : List Char),
      ∀ (s : Option Char) (r : List Char), italicStep s (c :: r) = none := by
    intro c hc s r
    fin_cases hc <;> exact italicStep_none _ _ _ (by decide)
  have hstate : ∀ (S : Option Char),
      List.foldl (fun _ c => some c) S
        (['<', '/', 's', 't', 'r', 'o', 'n', 'g', '>', ' ', 'a', 'n', 'd', ' '] : List Char) =
        some ' ' := fun S => rfl
  unfold italicPass runRepl
  rw [show (('<' :: 'p' :: '>' :: '<' :: 's' :: 't' :: 'r' :: 'o' :: 'n' :: 'g' :: '>' :: []) ++
      b ++ ('<' :: '/' :: 's' :: 't' :: 'r' :: 'o' :: 'n' :: 'g' :: '>' ::
        ' ' :: 'a' :: 'n' :: 'd' :: ' ' :: '*' :: []) ++ (ic :: i') ++
      ('*' :: ' ' :: 'a' :: 'n' :: 'd' :: ' ' :: '_' :: 'u' :: '_' ::
        '<' :: '/' :: 'p' :: '>' :: [])) =
    (['<', 'p', '>', '<', 's', 't', 'r', 'o', 'n', 'g', '>'] : List Char) ++ (b ++
      ((['<', '/', 's', 't', 'r', 'o', 'n', 'g', '>', ' ', 'a', 'n', 'd', ' '] : List Char) ++
        ('*' :: ((ic :: i') ++ ('*' :: (' ' :: 'a' :: 'n' :: 'd' :: ' ' :: '_' :: 'u' :: '_' ::
          '<' :: '/' :: 'p' :: '>' :: [])))))) from by simp]
  rw [show ((['<', 'p', '>', '<', 's', 't', 'r', 'o', 'n', 'g', '>'] : List Char) ++ (b ++
      ((['<', '/', 's', 't', 'r', 'o', 'n', 'g', '>', ' ', 'a', 'n', 'd', ' '] : List Char) ++
        ('*' :: ((ic :: i') ++ ('*' :: (' ' :: 'a' :: 'n' :: 'd' :: ' ' :: '_' :: 'u' :: '_' ::
          '<' :: '/' :: 'p' :: '>' :: []))))))).length =
    (['<', 'p', '>', '<', 's', 't', 'r', 'o', 'n', 'g', '>'] : List Char).length +
      (b.length +
        ((['<', '/', 's', 't', 'r', 'o', 'n', 'g', '>', ' ', 'a', 'n', 'd', ' '] :
            List Char).length +
          ((([' ', 'a', 'n', 'd', ' ', '_', 'u', '_', '<', '/', 'p', '>'] :
              List Char).length + (2 + i'.length)) + 1))) from by
    simp only [List.length_append, List.length_cons, List.length_nil]
    omega]
  rw [replSt_seg (['<', 'p', '>', '<', 's', 't', 'r', 'o', 'n', 'g', '>'] : List Char) hseg1]
  rw [replSt_seg b hsegb]
  rw [replSt_seg (['<', '/', 's', 't', 'r', 'o', 'n', 'g', '>', ' ', 'a', 'n', 'd', ' '] :
    List Char) hseg2]
  rw [replSt_cons_some (italicStep_match _ ic i'
    (' ' :: 'a' :: 'n' :: 'd' :: ' ' :: '_' :: 'u' :: '_' :: '<' :: '/' :: 'p' :: '>' :: [])
    (by rw [hstate]; decide) hic his (by decide))]
  rw [replSt_seg_end ([' ', 'a', 'n', 'd', ' ', '_', 'u', '_', '<', '/', 'p', '>'] : List Char)
    hseg3]
  simp

/-! ### Family walks for the heading passes -/

theorem replicate_hash_isPrefixOf_false (k n : Nat) (h : n < k) (X : List Char) :
    (List.replicate k '#').isPrefixOf (List.replicate n '#' ++ ' ' :: X) = false := by
  induction n generalizing k with
  | zero =>
    cases k with
    | zero => omega
    | succ k =>
      rw [List.replicate_succ]
      simp only [List.replicate, List.nil_append]
      exact isPrefixOf_head_ne _ _ (by decide)
  | succ n ih =>
    cases k with
    | zero => omega
    | succ k =>
      rw [List.replicate_succ, List.replicate_succ, List.cons_append]
      simp only [List.isPrefixOf]
      rw [ih k (by omega)]
      simp

/-- Heading pass of level `k` does not fire at a paragraph carrying fewer than
`k` marker hashes. -/
theorem headingStep_pre_none (k n : Nat) (h : n < k) (t : List Char) (s : Unit) :
    headingStep k s
      ('<' :: ((('p' :: '>' :: List.replicate n '#') ++ (' ' :: t)) ++
        ('<' :: ('/' :: 'p' :: '>' :: [])))) = none := by
  unfold headingStep pTagMatch
  rw [show ('<' :: ((('p' :: '>' :: List.replicate n '#') ++ (' ' :: t)) ++
      ('<' :: ('/' :: 'p' :: '>' :: [])))) =
    '<' :: 'p' :: '>' :: (List.replicate n '#' ++
      (' ' :: (t ++ ('<' :: ('/' :: 'p' :: '>' :: []))))) from by simp]
  rw [show (' ' :: (t ++ ('<' :: ('/' :: 'p' :: '>' :: []))) : List Char) =
    (' ' :: []) ++ (t ++ ('<' :: ('/' :: 'p' :: '>' :: []))) from by simp]
  rw [show (List.replicate n '#' ++ ((' ' :: []) ++ (t ++ ('<' :: ('/' :: 'p' :: '>' :: []))))) =
    (List.replicate n '#' ++ (' ' :: (t ++ ('<' :: ('/' :: 'p' :: '>' :: []))))) from by simp]
  have hguard : (('<' :: 'p' :: '>' :: List.replicate k '#') : List Char).isPrefixOf
      ('<' :: 'p' :: '>' :: (List.replicate n '#' ++
        (' ' :: (t ++ ('<' :: ('/' :: 'p' :: '>' :: [])))))) = false := by
    simp only [List.isPrefixOf]
    rw [replicate_hash_isPrefixOf_false k n h]
    simp
  rw [hguard]
  simp

/-- Heading pass of level `k` is the identity on a paragraph with fewer than
`k` marker hashes. -/
theorem headingPass_id_pre (k n : Nat) (h : n < k) (t : List Char)
    (ht : ∀ c ∈ t, c ≠ '<') :
    runPass (headingStep k)
      ('<' :: ((('p' :: '>' :: List.replicate n '#') ++ (' ' :: t)) ++
        ('<' :: ('/' :: 'p' :: '>' :: [])))) =
    '<' :: ((('p' :: '>' :: List.replicate n '#') ++ (' ' :: t)) ++
        ('<' :: ('/' :: 'p' :: '>' :: []))) := by
  apply runPass_id_shape
  · intro s c r hc; exact headingStep_none k s c r hc
  · intro c hc
    rcases List.mem_append.mp hc with h1 | h1
    · rcases h1 with _ | ⟨_, _ | ⟨_, h2⟩⟩
      · decide
      · decide
      · exact fun he => absurd (he ▸ List.eq_of_mem_replicate h2) (by decide)
    · rcases List.mem_cons.mp h1 with h2 | h2
      · exact h2 ▸ (by decide)
      · exact ht _ h2
  · intro c hc
    fin_cases hc <;> decide
  · exact headingStep_pre_none k n h t ()
  · unfold headingStep pTagMatch
    rw [show (('<' :: 'p' :: '>' :: List.replicate k '#') : List Char).isPrefixOf
        ('<' :: ('/' :: 'p' :: '>' :: [])) = false from by
      simp [List.isPrefixOf]]
    simp

/-- Heading pass of level `k` converts a paragraph with exactly `k` marker
hashes. -/
theorem headingPass_act (k : Nat) (c : Char) (t' : List Char)
    (hws : isJsWs c = false) (hlt : ∀ d ∈ c :: t', d ≠ '<')
    (hnl : ∀ d ∈ c :: t', d ≠ '\n') :
    runPass (headingStep k)
      ('<' :: ((('p' :: '>' :: List.replicate k '#') ++ (' ' :: (c :: t'))) ++
        ('<' :: ('/' :: 'p' :: '>' :: [])))) = headingRep k (c :: t') := by
  have hmatch : headingStep k ()
      ('<' :: ((('p' :: '>' :: List.replicate k '#') ++ (' ' :: (c :: t'))) ++
        ('<' :: ('/' :: 'p' :: '>' :: [])))) =
      some (headingRep k (c :: t'), [], ()) := by
    unfold headingStep pTagMatch
    rw [show ('<' :: ((('p' :: '>' :: List.replicate k '#') ++ (' ' :: (c :: t'))) ++
        ('<' :: ('/' :: 'p' :: '>' :: [])))) =
      ('<' :: 'p' :: '>' :: List.replicate k '#') ++
        (' ' :: ((c :: t') ++ ('<' :: ('/' :: 'p' :: '>' :: [])))) from by simp]
    rw [isPrefixOf_append_self]
    rw [if_pos (rfl : (true : Bool) = true)]
    rw [List.drop_left' (show (('<' :: 'p' :: '>' :: List.replicate k '#') : List Char).length =
      3 + (List.replicate k '#').length from by
        simp only [List.length_cons, List.length_replicate]
        omega)]
    simp only []
    rw [List.takeWhile_cons_of_pos (by decide)]
    rw [List.dropWhile_cons_of_pos (by decide)]
    rw [show ((c :: t') ++ ('<' :: ('/' :: 'p' :: '>' :: [])) : List Char) =
      c :: (t' ++ ('<' :: ('/' :: 'p' :: '>' :: []))) from by simp]
    rw [List.takeWhile_cons_of_neg (by simp [hws])]
    rw [List.dropWhile_cons_of_neg (by simp [hws])]
    rw [show (('<' :: ('/' :: 'p' :: '>' :: [])) : List Char).isPrefixOf
        (c :: (t' ++ ('<' :: ('/' :: 'p' :: '>' :: [])))) = false from
      isPrefixOf_head_ne _ _ (hlt c (List.mem_cons_self c t'))]
    rw [show (c :: (t' ++ ('<' :: ('/' :: 'p' :: '>' :: [])))) =
      (c :: t') ++ ('<' :: ('/' :: 'p' :: '>' :: [])) ++ [] from by simp]
    rw [lazyTo_boundary '<' ('/' :: 'p' :: '>' :: []) (c :: t') [] (by simp)
      hnl hlt]
    simp
  unfold runPass runRepl
  rw [show ('<' :: ((('p' :: '>' :: List.replicate k '#') ++ (' ' :: (c :: t'))) ++
      ('<' :: ('/' :: 'p' :: '>' :: [])))).length = (k + t'.length + 8) + 1 from by
    simp only [List.length_cons, List.length_append, List.length_replicate, List.length_nil]
    omega]
  rw [replSt_cons_some hmatch]
  rw [replSt_nil]
  simp

/-- The heading replacement, reshaped for the two-anchor identity walk. -/
theorem headingRep_shape (k : Nat) (t : List Char) :
    headingRep k t =
      '<' :: (('h' :: ((Nat.repr k).data ++ ('>' :: t))) ++
        ('<' :: ('/' :: 'h' :: ((Nat.repr k).data ++ ('>' :: []))))) := by
  unfold headingRep
  rw [show (("<h".data) : List Char) = '<' :: 'h' :: [] from rfl]
  rw [show ((">".data) : List Char) = '>' :: [] from rfl]
  rw [show (("</h".data) : List Char) = '<' :: '/' :: 'h' :: [] from rfl]
  simp

/-- Heading pass of level `k` is the identity on an already-converted heading
element. -/
theorem headingPass_id_tag (k : Nat) (d t : List Char)
    (hd : ∀ c ∈ d, c ≠ '<') (ht : ∀ c ∈ t, c ≠ '<') :
    runPass (headingStep k)
      ('<' :: (('h' :: (d ++ ('>' :: t))) ++
        ('<' :: ('/' :: 'h' :: (d ++ ('>' :: [])))))) =
    '<' :: (('h' :: (d ++ ('>' :: t))) ++
        ('<' :: ('/' :: 'h' :: (d ++ ('>' :: []))))) := by
  apply runPass_id_shape
  · intro s c r hc; exact headingStep_none k s c r hc
  · intro c hc
    rcases List.mem_cons.mp hc with h1 | h1
    · exact h1 ▸ (by decide)
    · rcases List.mem_append.mp h1 with h2 | h2
      · exact hd _ h2
      · rcases List.mem_cons.mp h2 with h3 | h3
        · exact h3 ▸ (by decide)
        · exact ht _ h3
  · intro c hc
    rcases List.mem_cons.mp hc with h1 | h1
    · exact h1 ▸ (by decide)
    · rcases List.mem_cons.mp h1 with h2 | h2
      · exact h2 ▸ (by decide)
      · rcases List.mem_append.mp h2 with h3 | h3
        · exact hd _ h3
        · rcases List.mem_cons.mp h3 with h4 | h4
          · exact h4 ▸ (by decide)
          · exact absurd h4 (by simp)
  · unfold headingStep pTagMatch
    rw [show (('<' :: 'p' :: '>' :: List.replicate k '#') : List Char).isPrefixOf
        ('<' :: (('h' :: (d ++ ('>' :: t))) ++
          ('<' :: ('/' :: 'h' :: (d ++ ('>' :: [])))))) = false from by
      simp [List.isPrefixOf]]
    simp
  · unfold headingStep pTagMatch
    rw [show (('<' :: 'p' :: '>' :: List.replicate k '#') : List Char).isPrefixOf
        ('<' :: ('/' :: 'h' :: (d ++ ('>' :: [])))) = false from by
      simp [List.isPrefixOf]]
    simp

/-! ### Family walks for the protection and restoration passes -/

theorem restoreStep_none (tbl : List (List Char)) (s : Unit) (c : Char) (r : List Char)
    (h : c ≠ '_') : restoreStep tbl s (c :: r) = none := by
  rw [restoreStep]
  rw [show (("__CODE_BLOCK_".data : List Char)) =
    '_' :: "_CODE_BLOCK_".data from rfl]
  rw [isPrefixOf_head_ne _ _ h]
  simp

theorem inlineStep_match (acc : List (List Char)) (c : Char) (s' B : List Char)
    (hc : c ≠ btick) (hsb : ∀ d ∈ s', d ≠ btick) :
    inlineStep acc (btick :: ((c :: s') ++ (btick :: B))) =
      some (placeholder acc.length, B, acc ++ [c :: s']) := by
  have htk : ((c :: s') ++ (btick :: B)).takeWhile (fun d => d ≠ btick) = c :: s' := by
    rw [List.takeWhile_append_of_pos (by
      intro a ha
      rcases List.mem_cons.mp ha with h | h
      · subst h; simp [hc]
      · simp [hsb a h])]
    rw [List.takeWhile_cons_of_neg (by simp)]
    simp
  have hdw : ((c :: s') ++ (btick :: B)).dropWhile (fun d => d ≠ btick) = btick :: B := by
    rw [List.dropWhile_append_of_pos (by
      intro a ha
      rcases List.mem_cons.mp ha with h | h
      · subst h; simp [hc]
      · simp [hsb a h])]
    rw [List.dropWhile_cons_of_neg (by simp)]
  rw [inlineStep]
  rw [if_pos rfl, htk, hdw]

/-- The protection pass on the paragraph `<p>**bold** and `s` stay</p>`: the
span text is extracted into the table and replaced by the first placeholder. -/
theorem extractInline_family (c : Char) (s' : List Char)
    (hc : c ≠ btick) (hsb : ∀ d ∈ s', d ≠ btick) :
    extractInline (('<' :: 'p' :: '>' :: '*' :: '*' :: 'b' :: 'o' :: 'l' :: 'd' ::
        '*' :: '*' :: ' ' :: 'a' :: 'n' :: 'd' :: ' ' :: []) ++
        (btick :: ((c :: s') ++ (btick ::
          (' ' :: 's' :: 't' :: 'a' :: 'y' :: '<' :: '/' :: 'p' :: '>' :: []))))) =
      (('<' :: 'p' :: '>' :: '*' :: '*' :: 'b' :: 'o' :: 'l' :: 'd' ::
        '*' :: '*' :: ' ' :: 'a' :: 'n' :: 'd' :: ' ' :: []) ++
        (placeholder 0 ++
          (' ' :: 's' :: 't' :: 'a' :: 'y' :: '<' :: '/' :: 'p' :: '>' :: [])),
        [c :: s']) := by
  have hseg1 : ∀ d ∈ (['<', 'p', '>', '*', '*', 'b', 'o', 'l', 'd', '*', '*',
      ' ', 'a', 'n', 'd', ' '] : List Char),
      ∀ (a : List (List Char)) (r : List Char), inlineStep a (d :: r) = none := by
    intro d hd a r
    fin_cases hd <;> exact inlineStep_none _ _ _ (by decide)
  have hseg2 : ∀ d ∈ ([' ', 's', 't', 'a', 'y', '<', '/', 'p', '>'] : List Char),
      ∀ (a : List (List Char)) (r : List Char), inlineStep a (d :: r) = none := by
    intro d hd a r
    fin_cases hd <;> exact inlineStep_none _ _ _ (by decide)
  unfold extractInline runRepl
  rw [show ((('<' :: 'p' :: '>' :: '*' :: '*' :: 'b' :: 'o' :: 'l' :: 'd' ::
      '*' :: '*' :: ' ' :: 'a' :: 'n' :: 'd' :: ' ' :: []) : List Char) ++
      (btick :: ((c :: s') ++ (btick ::
        (' ' :: 's' :: 't' :: 'a' :: 'y' :: '<' :: '/' :: 'p' :: '>' :: []))))).length =
    ((['<', 'p', '>', '*', '*', 'b', 'o', 'l', 'd', '*', '*',
        ' ', 'a', 'n', 'd', ' '] : List Char)).length +
      ((([' ', 's', 't', 'a', 'y', '<', '/', 'p', '>'] : List Char)).length +
        (s'.length + 2) + 1) from by
    simp only [List.length_append, List.length_cons, List.length_nil]
    omega]
  rw [replSt_seg (['<', 'p', '>', '*', '*', 'b', 'o', 'l', 'd', '*', '*',
    ' ', 'a', 'n', 'd', ' '] : List Char) hseg1]
  rw [replSt_cons_some (inlineStep_match _ c s'
    (' ' :: 's' :: 't' :: 'a' :: 'y' :: '<' :: '/' :: 'p' :: '>' :: []) hc hsb)]
  rw [replSt_seg_end ([' ', 's', 't', 'a', 'y', '<', '/', 'p', '>'] : List Char) hseg2]
  simp

/-- The restoration pass substitutes the table entry for the placeholder,
verbatim, inside the emphasised masked string. -/
theorem restorePass_family (t : List Char) :
    restorePass [t]
      (('<' :: 'p' :: '>' :: '<' :: 's' :: 't' :: 'r' :: 'o' :: 'n' :: 'g' :: '>' :: 'b' :: 'o' :: 'l' :: 'd' :: '<' :: '/' :: 's' :: 't' :: 'r' :: 'o' :: 'n' :: 'g' :: '>' :: ' ' :: 'a' :: 'n' :: 'd' :: ' ' :: []) ++ (('_' :: '_' :: 'C' :: 'O' :: 'D' :: 'E' :: '_' :: 'B' :: 'L' :: 'O' :: 'C' :: 'K' :: '_' :: '0' :: '_' :: '_' :: []) ++ (' ' :: 's' :: 't' :: 'a' :: 'y' :: '<' :: '/' :: 'p' :: '>' :: []))) =
    ('<' :: 'p' :: '>' :: '<' :: 's' :: 't' :: 'r' :: 'o' :: 'n' :: 'g' :: '>' :: 'b' :: 'o' :: 'l' :: 'd' :: '<' :: '/' :: 's' :: 't' :: 'r' :: 'o' :: 'n' :: 'g' :: '>' :: ' ' :: 'a' :: 'n' :: 'd' :: ' ' :: []) ++ (("<code>".data ++ t ++ "</code>".data) ++ (' ' :: 's' :: 't' :: 'a' :: 'y' :: '<' :: '/' :: 'p' :: '>' :: [])) := by
  have hseg1 : ∀ d ∈ (['<', 'p', '>', '<', 's', 't', 'r', 'o', 'n', 'g', '>', 'b', 'o', 'l', 'd', '<', '/', 's', 't', 'r', 'o', 'n', 'g', '>', ' ', 'a', 'n', 'd', ' '] : List Char),
      ∀ (s : Unit) (r : List Char), restoreStep [t] s (d :: r) = none := by
    intro d hd s r
    fin_cases hd <;> exact restoreStep_none _ _ _ _ (by decide)
  have hseg2 : ∀ d ∈ ([' ', 's', 't', 'a', 'y', '<', '/', 'p', '>'] : List Char),
      ∀ (s : Unit) (r : List Char), restoreStep [t] s (d :: r) = none := by
    intro d hd s r
    fin_cases hd <;> exact restoreStep_none _ _ _ _ (by decide)
  have hmatch : restoreStep [t] () (['_', '_', 'C', 'O', 'D', 'E', '_', 'B', 'L', 'O', 'C', 'K', '_', '0', '_', '_', ' ', 's', 't', 'a', 'y', '<', '/', 'p', '>'] : List Char) =
      some ("<code>".data ++ t ++ "</code>".data, ' ' :: 's' :: 't' :: 'a' :: 'y' :: '<' :: '/' :: 'p' :: '>' :: [], ()) := rfl
  unfold restorePass runRepl
  rw [show ((('<' :: 'p' :: '>' :: '<' :: 's' :: 't' :: 'r' :: 'o' :: 'n' :: 'g' :: '>' :: 'b' :: 'o' :: 'l' :: 'd' :: '<' :: '/' :: 's' :: 't' :: 'r' :: 'o' :: 'n' :: 'g' :: '>' :: ' ' :: 'a' :: 'n' :: 'd' :: ' ' :: []) : List Char) ++ (('_' :: '_' :: 'C' :: 'O' :: 'D' :: 'E' :: '_' :: 'B' :: 'L' :: 'O' :: 'C' :: 'K' :: '_' :: '0' :: '_' :: '_' :: []) ++ (' ' :: 's' :: 't' :: 'a' :: 'y' :: '<' :: '/' :: 'p' :: '>' :: []))).length =
    ((['<', 'p', '>', '<', 's', 't', 'r', 'o', 'n', 'g', '>', 'b', 'o', 'l', 'd', '<', '/', 's', 't', 'r', 'o', 'n', 'g', '>', ' ', 'a', 'n', 'd', ' '] : List Char)).length + ((([' ', 's', 't', 'a', 'y', '<', '/', 'p', '>'] : List Char)).length + 15 + 1) from by
    simp only [List.length_append, List.length_cons, List.length_nil]]
  rw [show (('<' :: 'p' :: '>' :: '<' :: 's' :: 't' :: 'r' :: 'o' :: 'n' :: 'g' :: '>' :: 'b' :: 'o' :: 'l' :: 'd' :: '<' :: '/' :: 's' :: 't' :: 'r' :: 'o' :: 'n' :: 'g' :: '>' :: ' ' :: 'a' :: 'n' :: 'd' :: ' ' :: []) : List Char) ++ (('_' :: '_' :: 'C' :: 'O' :: 'D' :: 'E' :: '_' :: 'B' :: 'L' :: 'O' :: 'C' :: 'K' :: '_' :: '0' :: '_' :: '_' :: []) ++ (' ' :: 's' :: 't' :: 'a' :: 'y' :: '<' :: '/' :: 'p' :: '>' :: [])) =
    (['<', 'p', '>', '<', 's', 't', 'r', 'o', 'n', 'g', '>', 'b', 'o', 'l', 'd', '<', '/', 's', 't', 'r', 'o', 'n', 'g', '>', ' ', 'a', 'n', 'd', ' '] : List Char) ++ (['_', '_', 'C', 'O', 'D', 'E', '_', 'B', 'L', 'O', 'C', 'K', '_', '0', '_', '_', ' ', 's', 't', 'a', 'y', '<', '/', 'p', '>'] : List Char) from by simp]
  rw [replSt_seg (['<', 'p', '>', '<', 's', 't', 'r', 'o', 'n', 'g', '>', 'b', 'o', 'l', 'd', '<', '/', 's', 't', 'r', 'o', 'n', 'g', '>', ' ', 'a', 'n', 'd', ' '] : List Char) hseg1]
  rw [replSt_cons_some hmatch]
  rw [replSt_seg_end ([' ', 's', 't', 'a', 'y', '<', '/', 'p', '>'] : List Char) hseg2]

theorem length_dropWhile_le (p : Char → Bool) (l : List Char) :
    (l.dropWhile p).length ≤ l.length := by
  induction l with
  | nil => simp
  | cons c rest ih =>
    by_cases h : p c
    · rw [List.dropWhile_cons_of_pos h]; exact Nat.le_trans ih (Nat.le_succ _)
    · rw [List.dropWhile_cons_of_neg h]

theorem jsTrim_length_le (l : List Char) : (jsTrim l).length ≤ l.length := by
  unfold jsTrim
  calc (((l.dropWhile isJsWs).reverse.dropWhile isJsWs).reverse).length
      = ((l.dropWhile isJsWs).reverse.dropWhile isJsWs).length := List.length_reverse _
    _ ≤ (l.dropWhile isJsWs).reverse.length := length_dropWhile_le _ _
    _ = (l.dropWhile isJsWs).length := List.length_reverse _
    _ ≤ l.length := length_dropWhile_le _ _

theorem joinNl_cons_length (x : List Char) (xs : List (List Char)) :
    x.length ≤ (joinNl (x :: xs)).length := by
  cases xs with
  | nil => simp [joinNl]
  | cons y rest => simp [joinNl]

/-! ### C4 -/

/-- C4: whenever the underlying fetch rejects or the backend responds with a
non-success status, `getAllPostSlugs` yields the empty list; and for every
outcome it returns a list rather than raising. -/
theorem C4_getAllPostSlugs_soft_fail (o : FetchOutcome (List WPPostF)) :
    (∃ l, getAllPostSlugs o = .ok l) ∧
    (∀ e, fetchAPI o = .error e → getAllPostSlugs o = .ok []) := by
  constructor
  · cases h : fetchAPI o with
    | error e => exact ⟨[], by simp [getAllPostSlugs, h]⟩
    | ok posts => exact ⟨posts.map (fun p => p.slug), by simp [getAllPostSlugs, h]⟩
  · intro e he
    simp [getAllPostSlugs, he]

/-- Witness for C4: a rejected fetch yields the empty slug list. -/
theorem C4_getAllPostSlugs_soft_fail_witness :
    getAllPostSlugs (FetchOutcome.reject "network down") = .ok [] :=
  (C4_getAllPostSlugs_soft_fail (FetchOutcome.reject "network down")).2 "network down" rfl

/-! ### C8 -/

/-- C8: for a successful response, `getPostBySlug` returns null on an empty
result list and the first element on a non-empty one — in neither case an
error. -/
theorem C8_getPostBySlug_first_or_null (st : Nat) (stx : String) :
    getPostBySlug (FetchOutcome.response true st stx []) = .ok none ∧
    (∀ (p : WPPostF) (ps : List WPPostF),
      getPostBySlug (FetchOutcome.response true st stx (p :: ps)) = .ok (some p)) := by
  exact ⟨rfl, fun p ps => rfl⟩

/-! ### C5 -/

/-- C5: when the fetched category list contains an entry whose name matches
the requested name case-insensitively, `getOrCreateCategory` returns such an
entry's id and issues no creation call; when no entry matches, it issues the
creation call and returns the created id. -/
theorem C5_getOrCreateCategory_lookup (cats : List PubCategory)
    (created : PubCategory) (name : String) :
    ((∃ c ∈ cats, jsToLower c.name = jsToLower name) →
      ∃ c ∈ cats, jsToLower c.name = jsToLower name ∧
        getOrCreateCategory cats created name = (c.id, false)) ∧
    ((∀ c ∈ cats, jsToLower c.name ≠ jsToLower name) →
      getOrCreateCategory cats created name = (created.id, true)) := by
  constructor
  · intro h
    obtain ⟨c, hc, he⟩ := h
    have hsome : (cats.find? (fun c => jsToLower c.name == jsToLower name)).isSome := by
      rw [List.find?_isSome]
      exact ⟨c, hc, by simpa using he⟩
    obtain ⟨c', hc'⟩ := Option.isSome_iff_exists.mp hsome
    refine ⟨c', List.mem_of_find?_eq_some hc', ?_, ?_⟩
    · simpa using List.find?_some hc'
    · simp [getOrCreateCategory, hc']
  · intro h
    have hnone : cats.find? (fun c => jsToLower c.name == jsToLower name) = none := by
      rw [List.find?_eq_none]
      intro c hc
      simpa using h c hc
    simp [getOrCreateCategory, hnone]

/-- Witness for C5: a case-insensitive hit returns the existing id without
creating; a miss creates. -/
theorem C5_getOrCreateCategory_lookup_witness :
    (∃ c ∈ ([⟨2, "Lessons Learned", "ll"⟩, ⟨4, "Vibe Coding", "vc"⟩] : List PubCategory),
      jsToLower c.name = jsToLower "VIBE coding" ∧
      getOrCreateCategory [⟨2, "Lessons Learned", "ll"⟩, ⟨4, "Vibe Coding", "vc"⟩]
        ⟨9, "New", "new"⟩ "VIBE coding" = (c.id, false)) ∧
    getOrCreateCategory [⟨2, "Lessons Learned", "ll"⟩] ⟨9, "New", "new"⟩ "VIBE coding" =
      (9, true) := by
  constructor
  · exact (C5_getOrCreateCategory_lookup _ _ _).1 ⟨⟨4, "Vibe Coding", "vc"⟩,
      by decide, by decide⟩
  · exact (C5_getOrCreateCategory_lookup _ _ _).2 (by decide)

/-! ### C10 -/

/-- C10: `publishPost id` is the call `updatePost { id, status := publish }`,
and the request it issues is exactly the one the spec describes: endpoint
`posts/:id`, method POST, body containing only the publish status. -/
theorem C10_publishPost_refines_updatePost (id : Nat) :
    publishPost id = updatePost { id := id, title := none, content := none,
                                  excerpt := none, status := some "publish",
                                  categories := none, tags := none,
                                  featured_media := none } ∧
    publishPost id = publishPostSpec id := by
  exact ⟨rfl, rfl⟩

/-! ### C2 -/

/-- C2: the code fails the claim — on the spec's own fenced-block example the
pipeline produces no `<pre><code>` block and keeps the paragraph wrapper,
because the inline-code pass has already paired the fence backticks; and a
tilde fence is unwrapped but never converted.  This theorem records the
actual behavior at the failing inputs. -/
theorem C2_fenced_block_not_converted :
    processContent "<p>```js\nconst x = 1;\n```</p>" =
      "<p>``<code>js\nconst x = 1;\n</code>``</p>" ∧
    processContent "<p>~~~\ncode\n~~~</p>" = "~~~\ncode\n~~~" ∧
    hasSub ("<pre>".data) (processContent "<p>```js\nconst x = 1;\n```</p>").data = false ∧
    hasSub ("<pre>".data) (processContent "<p>~~~\ncode\n~~~</p>").data = false := by
  exact ⟨rfl, rfl, rfl, rfl⟩

/-! ### C3 -/

set_option maxRecDepth 8000 in
set_option maxHeartbeats 2000000 in
/-- C3 (counterexample): at `exC3` the cleaned text is strictly longer than
the default maximum of 160, yet the output length is 162, not 160 + 3 = 163:
the cut prefix is trimmed again before the ellipsis is appended, so the
claimed length equation fails. -/
theorem C3_truncation_length_counterexample :
    160 < (cleanExcerpt exC3).length ∧
    (getExcerptTextDefault exC3).length ≠ 160 + 3 := by
  have h1 : (cleanExcerpt exC3).length = 163 := by rfl
  have h2 : (getExcerptTextDefault exC3).length = 162 := by rfl
  omega

theorem data_mk (l : List Char) : (String.mk l).data = l := rfl

theorem length_mk (l : List Char) : (String.mk l).length = l.length := rfl

theorem cleanExcerpt_data (e : String) : (cleanExcerpt e).data = cleanExcerptL e.data := by
  simp only [cleanExcerpt, data_mk]

theorem cleanExcerpt_length (e : String) :
    (cleanExcerpt e).length = (cleanExcerptL e.data).length := by
  simp only [cleanExcerpt, length_mk]

/-- C3 (amended): when the cleaned text is within `maxLen` the output is the
cleaned text verbatim with no ellipsis; when it is longer, the output is the
right-trimmed `maxLen`-character prefix with the three-character ellipsis
appended — hence of length at most `maxLen + 3`, with equality only when the
prefix needed no trimming. -/
theorem C3_getExcerptText_amended (e : String) (maxLen : Nat) :
    ((cleanExcerpt e).length ≤ maxLen → getExcerptText maxLen e = cleanExcerpt e) ∧
    (maxLen < (cleanExcerpt e).length →
      getExcerptText maxLen e = ⟨jsTrim ((cleanExcerpt e).data.take maxLen) ++ "...".data⟩ ∧
      (getExcerptText maxLen e).length ≤ maxLen + 3) := by
  rw [cleanExcerpt_length e, cleanExcerpt_data e]
  have hdef : getExcerptText maxLen e =
      if (cleanExcerptL e.data).length ≤ maxLen then (⟨cleanExcerptL e.data⟩ : String)
      else ⟨jsTrim ((cleanExcerptL e.data).take maxLen) ++ "...".data⟩ := rfl
  constructor
  · intro hx
    rw [hdef, if_pos hx]
    rfl
  · intro hlt
    have hx : ¬ (cleanExcerptL e.data).length ≤ maxLen := Nat.not_le.mpr hlt
    have heq : getExcerptText maxLen e =
        ⟨jsTrim ((cleanExcerptL e.data).take maxLen) ++ "...".data⟩ := by
      rw [hdef, if_neg hx]
    refine ⟨heq, ?_⟩
    rw [heq]
    have h1 : (jsTrim ((cleanExcerptL e.data).take maxLen)).length ≤ maxLen :=
      Nat.le_trans (jsTrim_length_le _) (List.length_take_le _ _)
    have h2 : (String.mk (jsTrim ((cleanExcerptL e.data).take maxLen) ++ "...".data)).length =
        (jsTrim ((cleanExcerptL e.data).take maxLen)).length + 3 := by
      show (jsTrim ((cleanExcerptL e.data).take maxLen) ++ "...".data).length =
        (jsTrim ((cleanExcerptL e.data).take maxLen)).length + 3
      rw [List.length_append]
      rfl
    omega

/-- Witness for C3 (amended), both branches at concrete inputs. -/
theorem C3_getExcerptText_amended_witness :
    getExcerptText 5 "ab" = cleanExcerpt "ab" ∧
    (getExcerptText 5 "abcdefgh").length ≤ 5 + 3 := by
  exact ⟨(C3_getExcerptText_amended "ab" 5).1 (by decide),
    ((C3_getExcerptText_amended "abcdefgh" 5).2 (by decide)).2⟩

/-! ### C9 -/

theorem listReplacer_of_filter_nil (test : List Char → Bool)
    (strip : List Char → List Char) (opening closing m : List Char)
    (h : ((splitBr (stripPTags m)).map jsTrim).filter test = []) :
    listReplacer test strip opening closing m = m := by
  simp only [listReplacer, h, List.map_nil, joinNl]
  simp

theorem listReplacer_of_filter_cons (test : List Char → Bool)
    (strip : List Char → List Char) (opening closing m ln : List Char)
    (ls : List (List Char))
    (h : ((splitBr (stripPTags m)).map jsTrim).filter test = ln :: ls) :
    listReplacer test strip opening closing m =
      opening ++ joinNl ((ln :: ls).map (liWrap strip)) ++ closing := by
  have hpos : 0 < (joinNl ((ln :: ls).map (liWrap strip))).length := by
    have h1 := joinNl_cons_length (liWrap strip ln) (ls.map (liWrap strip))
    have h2 : 0 < (liWrap strip ln).length := by simp [liWrap]
    simp only [List.map_cons]
    omega
  simp only [listReplacer, h, hpos, if_pos]

/-- C9: for a paragraph consumed by the ordered- or unordered-list rewrite,
if none of its lines (split on `<br>` tags or newlines, then trimmed) matches
the item prefix, the callback returns the paragraph unchanged; otherwise the
result is the list element with exactly one `<li>` per matching line, that
line's prefix removed. -/
theorem C9_list_rewrite_lines (m : List Char) :
    (((splitBr (stripPTags m)).map jsTrim).filter olTest = [] → olReplacer m = m) ∧
    (∀ ln ls, ((splitBr (stripPTags m)).map jsTrim).filter olTest = ln :: ls →
      olReplacer m =
        "<ol>".data ++ joinNl ((ln :: ls).map (liWrap olStrip)) ++ "</ol>".data) ∧
    (((splitBr (stripPTags m)).map jsTrim).filter ulTest = [] → ulReplacer m = m) ∧
    (∀ ln ls, ((splitBr (stripPTags m)).map jsTrim).filter ulTest = ln :: ls →
      ulReplacer m =
        "<ul>".data ++ joinNl ((ln :: ls).map (liWrap ulStrip)) ++ "</ul>".data) := by
  refine ⟨?_, ?_, ?_, ?_⟩
  · intro h; exact listReplacer_of_filter_nil _ _ _ _ _ h
  · intro ln ls h; exact listReplacer_of_filter_cons _ _ _ _ _ _ _ h
  · intro h; exact listReplacer_of_filter_nil _ _ _ _ _ h
  · intro ln ls h; exact listReplacer_of_filter_cons _ _ _ _ _ _ _ h

/-- Witness for C9: all four branches at concrete paragraphs. -/
theorem C9_list_rewrite_lines_witness :
    olReplacer ("<p>1.x</p>".data) = "<p>1.x</p>".data ∧
    olReplacer ("<p>1. a<br>b</p>".data) = "<ol>".data ++
      joinNl (["1. a".data].map (liWrap olStrip)) ++ "</ol>".data ∧
    ulReplacer ("<p>1. a</p>".data) = "<p>1. a</p>".data ∧
    ulReplacer ("<p>- x<br>- y</p>".data) = "<ul>".data ++
      joinNl (["- x".data, "- y".data].map (liWrap ulStrip)) ++ "</ul>".data := by
  refine ⟨(C9_list_rewrite_lines _).1 (by rfl),
    (C9_list_rewrite_lines _).2.1 ("1. a".data) [] (by rfl),
    (C9_list_rewrite_lines _).2.2.1 (by rfl),
    (C9_list_rewrite_lines _).2.2.2 ("- x".data) ["- y".data] (by rfl)⟩

/-! ### C7 -/

/-- C7: every double-asterisk span becomes `<strong>` and every single-asterisk
span not adjacent to another asterisk becomes `<em>`, while underscore-delimited
spans are left alone — as a family over the two span texts through the bold and
italic passes, and concretely through `processContent` on the spec's example
extended with an underscored identifier. -/
theorem C7_emphasis_rewrites :
    (∀ (b i : List Char), b ≠ [] → i ≠ [] →
      (∀ c ∈ b, c ≠ '\n') → (∀ c ∈ b, c ≠ '*') → (∀ c ∈ i, c ≠ '*') →
      italicPass (boldPass
          ("<p>**".data ++ b ++ "** and *".data ++ i ++ "* and _u_</p>".data)) =
        "<p><strong>".data ++ b ++ "</strong> and <em>".data ++ i ++
          "</em> and _u_</p>".data) ∧
    processContent "<p>**bold** and *italic* and _file_name_</p>" =
      "<p><strong>bold</strong> and <em>italic</em> and _file_name_</p>" := by
  constructor
  · intro b i hb hi hbnl hbs his
    obtain ⟨ic, i', rfl⟩ := List.exists_cons_of_ne_nil hi
    have hic : ic ≠ '*' := his ic (List.mem_cons_self _ _)
    have his' : ∀ c ∈ i', c ≠ '*' := fun c hc => his c (List.mem_cons_of_mem _ hc)
    show italicPass (boldPass (('<' :: 'p' :: '>' :: '*' :: '*' :: []) ++ b ++
        ('*' :: '*' :: ' ' :: 'a' :: 'n' :: 'd' :: ' ' :: '*' :: []) ++ (ic :: i') ++
        ('*' :: ' ' :: 'a' :: 'n' :: 'd' :: ' ' :: '_' :: 'u' :: '_' ::
          '<' :: '/' :: 'p' :: '>' :: []))) =
      ('<' :: 'p' :: '>' :: '<' :: 's' :: 't' :: 'r' :: 'o' :: 'n' :: 'g' :: '>' :: []) ++
        b ++ ('<' :: '/' :: 's' :: 't' :: 'r' :: 'o' :: 'n' :: 'g' :: '>' ::
          ' ' :: 'a' :: 'n' :: 'd' :: ' ' :: '<' :: 'e' :: 'm' :: '>' :: []) ++ (ic :: i') ++
        ('<' :: '/' :: 'e' :: 'm' :: '>' :: ' ' :: 'a' :: 'n' :: 'd' :: ' ' ::
          '_' :: 'u' :: '_' :: '<' :: '/' :: 'p' :: '>' :: [])
    rw [boldPass_family b i' ic hb hbnl hbs hic his']
    rw [italicPass_family b i' ic hbs hic his']
  · rfl

/-- Witness for C7 at concrete spans containing underscores. -/
theorem C7_emphasis_rewrites_witness :
    italicPass (boldPass ("<p>**".data ++ "bo_ld".data ++ "** and *".data ++
        "it_alic".data ++ "* and _u_</p>".data)) =
      "<p><strong>".data ++ "bo_ld".data ++ "</strong> and <em>".data ++
        "it_alic".data ++ "</em> and _u_</p>".data :=
  C7_emphasis_rewrites.1 "bo_ld".data "it_alic".data (by decide) (by decide)
    (by decide) (by decide) (by decide)

/-! ### C6 -/

/-- C6: a paragraph whose content is one to six hash marks followed by text is
promoted to the heading of the corresponding level, the six-hash pass running
first so the longest marker wins — as a family over the level and the heading
text through the six-pass chain, and concretely through `processContent` on
the spec's example and on a six-hash paragraph. -/
theorem C6_heading_promotion :
    (∀ (n : Nat), 1 ≤ n → n ≤ 6 → ∀ (c : Char) (t' : List Char),
      isJsWs c = false → (∀ d ∈ c :: t', d ≠ '<') → (∀ d ∈ c :: t', d ≠ '\n') →
      headingPasses ("<p>".data ++ List.replicate n '#' ++ ' ' :: (c :: t') ++ "</p>".data) =
        headingRep n (c :: t')) ∧
    processContent "<p>## Title</p>" = "<h2>Title</h2>" ∧
    processContent "<p>###### Six</p>" = "<h6>Six</h6>" := by
  refine ⟨?_, rfl, rfl⟩
  intro n h1 h6 c t' hws hlt hnl
  interval_cases n
  · show headingPasses ('<' :: ((('p' :: '>' :: List.replicate 1 '#') ++ (' ' :: (c :: t'))) ++
        ('<' :: ('/' :: 'p' :: '>' :: [])))) = headingRep 1 (c :: t')
    unfold headingPasses
    rw [headingPass_id_pre 6 1 (by omega) (c :: t') hlt]
    rw [headingPass_id_pre 5 1 (by omega) (c :: t') hlt]
    rw [headingPass_id_pre 4 1 (by omega) (c :: t') hlt]
    rw [headingPass_id_pre 3 1 (by omega) (c :: t') hlt]
    rw [headingPass_id_pre 2 1 (by omega) (c :: t') hlt]
    rw [headingPass_act 1 c t' hws hlt hnl]

  · show headingPasses ('<' :: ((('p' :: '>' :: List.replicate 2 '#') ++ (' ' :: (c :: t'))) ++
        ('<' :: ('/' :: 'p' :: '>' :: [])))) = headingRep 2 (c :: t')
    unfold headingPasses
    rw [headingPass_id_pre 6 2 (by omega) (c :: t') hlt]
    rw [headingPass_id_pre 5 2 (by omega) (c :: t') hlt]
    rw [headingPass_id_pre 4 2 (by omega) (c :: t') hlt]
    rw [headingPass_id_pre 3 2 (by omega) (c :: t') hlt]
    rw [headingPass_act 2 c t' hws hlt hnl]
    rw [headingRep_shape 2 (c :: t')]
    rw [headingPass_id_tag 1 (Nat.repr 2).data (c :: t') (by decide) hlt]

  · show headingPasses ('<' :: ((('p' :: '>' :: List.replicate 3 '#') ++ (' ' :: (c :: t'))) ++
        ('<' :: ('/' :: 'p' :: '>' :: [])))) = headingRep 3 (c :: t')
    unfold headingPasses
    rw [headingPass_id_pre 6 3 (by omega) (c :: t') hlt]
    rw [headingPass_id_pre 5 3 (by omega) (c :: t') hlt]
    rw [headingPass_id_pre 4 3 (by omega) (c :: t') hlt]
    rw [headingPass_act 3 c t' hws hlt hnl]
    rw [headingRep_shape 3 (c :: t')]
    rw [headingPass_id_tag 2 (Nat.repr 3).data (c :: t') (by decide) hlt]
    rw [headingPass_id_tag 1 (Nat.repr 3).data (c :: t') (by decide) hlt]

  · show headingPasses ('<' :: ((('p' :: '>' :: List.replicate 4 '#') ++ (' ' :: (c :: t'))) ++
        ('<' :: ('/' :: 'p' :: '>' :: [])))) = headingRep 4 (c :: t')
    unfold headingPasses
    rw [headingPass_id_pre 6 4 (by omega) (c :: t') hlt]
    rw [headingPass_id_pre 5 4 (by omega) (c :: t') hlt]
    rw [headingPass_act 4 c t' hws hlt hnl]
    rw [headingRep_shape 4 (c :: t')]
    rw [headingPass_id_tag 3 (Nat.repr 4).data (c :: t') (by decide) hlt]
    rw [headingPass_id_tag 2 (Nat.repr 4).data (c :: t') (by decide) hlt]
    rw [headingPass_id_tag 1 (Nat.repr 4).data (c :: t') (by decide) hlt]

  · show headingPasses ('<' :: ((('p' :: '>' :: List.replicate 5 '#') ++ (' ' :: (c :: t'))) ++
        ('<' :: ('/' :: 'p' :: '>' :: [])))) = headingRep 5 (c :: t')
    unfold headingPasses
    rw [headingPass_id_pre 6 5 (by omega) (c :: t') hlt]
    rw [headingPass_act 5 c t' hws hlt hnl]
    rw [headingRep_shape 5 (c :: t')]
    rw [headingPass_id_tag 4 (Nat.repr 5).data (c :: t') (by decide) hlt]
    rw [headingPass_id_tag 3 (Nat.repr 5).data (c :: t') (by decide) hlt]
    rw [headingPass_id_tag 2 (Nat.repr 5).data (c :: t') (by decide) hlt]
    rw [headingPass_id_tag 1 (Nat.repr 5).data (c :: t') (by decide) hlt]

  · show headingPasses ('<' :: ((('p' :: '>' :: List.replicate 6 '#') ++ (' ' :: (c :: t'))) ++
        ('<' :: ('/' :: 'p' :: '>' :: [])))) = headingRep 6 (c :: t')
    unfold headingPasses
    rw [headingPass_act 6 c t' hws hlt hnl]
    rw [headingRep_shape 6 (c :: t')]
    rw [headingPass_id_tag 5 (Nat.repr 6).data (c :: t') (by decide) hlt]
    rw [headingPass_id_tag 4 (Nat.repr 6).data (c :: t') (by decide) hlt]
    rw [headingPass_id_tag 3 (Nat.repr 6).data (c :: t') (by decide) hlt]
    rw [headingPass_id_tag 2 (Nat.repr 6).data (c :: t') (by decide) hlt]
    rw [headingPass_id_tag 1 (Nat.repr 6).data (c :: t') (by decide) hlt]

/-- Witness for C6 at level 3 and a concrete title. -/
theorem C6_heading_promotion_witness :
    headingPasses ("<p>".data ++ List.replicate 3 '#' ++ ' ' :: ('T' :: 'i' :: 't' :: []) ++
        "</p>".data) = headingRep 3 ('T' :: 'i' :: 't' :: []) :=
  C6_heading_promotion.1 3 (by decide) (by decide) 'T' ('i' :: 't' :: [])
    (by decide) (by decide) (by decide)

/-! ### C1 -/

/-- C1 (counterexample): a protected span sitting on the non-matching line of
an ordered-list paragraph is dropped together with its line — the output
contains neither a `<code>` element nor the span text, so the span does not
reappear. -/
theorem C1_span_dropped_by_list_rewrite :
    processContent "<p>1. a<br>`code`</p>" = "<ol><li>a</li></ol>" ∧
    hasSub ("code".data) (processContent "<p>1. a<br>`code`</p>").data = false := by
  exact ⟨rfl, rfl⟩

/-- C1 (amended): the placeholder protection reproduces every span text
exactly — through the masked phase (protection, headings, emphasis,
restoration) the span reappears verbatim as the content of an inline `<code>`
element, whatever asterisks, underscores or hash characters it contains; the
full pipeline does so too unless a later paragraph-level rewrite (the list
passes) drops the span's line, as witnessed concretely on a span containing
`_`, `*` and `#`. -/
theorem C1_inline_code_restored :
    (∀ (s : List Char), s ≠ [] → (∀ d ∈ s, d ≠ btick) →
      inlineProtected ("<p>**bold** and `".data ++ s ++ "` stay</p>".data) =
        "<p><strong>bold</strong> and <code>".data ++ s ++ "</code> stay</p>".data) ∧
    processContent "<p>**bold** and `a_*#b` stay</p>" =
      "<p><strong>bold</strong> and <code>a_*#b</code> stay</p>" := by
  constructor
  · intro s hs hsb
    obtain ⟨c, s', rfl⟩ := List.exists_cons_of_ne_nil hs
    have hc : c ≠ btick := hsb c (List.mem_cons_self _ _)
    have hsb' : ∀ d ∈ s', d ≠ btick := fun d hd => hsb d (List.mem_cons_of_mem _ hd)
    rw [show ("<p>**bold** and `".data ++ (c :: s') ++ "` stay</p>".data : List Char) =
      (('<' :: 'p' :: '>' :: '*' :: '*' :: 'b' :: 'o' :: 'l' :: 'd' :: '*' :: '*' :: ' ' :: 'a' :: 'n' :: 'd' :: ' ' :: []) : List Char) ++ (btick :: ((c :: s') ++ (btick :: (' ' :: 's' :: 't' :: 'a' :: 'y' :: '<' :: '/' :: 'p' :: '>' :: [])))) from by
        rw [show ("<p>**bold** and `".data : List Char) = ('<' :: 'p' :: '>' :: '*' :: '*' :: 'b' :: 'o' :: 'l' :: 'd' :: '*' :: '*' :: ' ' :: 'a' :: 'n' :: 'd' :: ' ' :: []) ++ (btick :: []) from rfl]
        rw [show ("` stay</p>".data : List Char) = btick :: (' ' :: 's' :: 't' :: 'a' :: 'y' :: '<' :: '/' :: 'p' :: '>' :: []) from rfl]
        simp]
    simp only [inlineProtected]
    rw [extractInline_family c s' hc hsb']
    simp only []
    rw [show italicPass (boldPass (headingPasses ((('<' :: 'p' :: '>' :: '*' :: '*' :: 'b' :: 'o' :: 'l' :: 'd' :: '*' :: '*' :: ' ' :: 'a' :: 'n' :: 'd' :: ' ' :: []) : List Char) ++
        (placeholder 0 ++ (' ' :: 's' :: 't' :: 'a' :: 'y' :: '<' :: '/' :: 'p' :: '>' :: []))))) =
      (('<' :: 'p' :: '>' :: '<' :: 's' :: 't' :: 'r' :: 'o' :: 'n' :: 'g' :: '>' :: 'b' :: 'o' :: 'l' :: 'd' :: '<' :: '/' :: 's' :: 't' :: 'r' :: 'o' :: 'n' :: 'g' :: '>' :: ' ' :: 'a' :: 'n' :: 'd' :: ' ' :: []) : List Char) ++ (('_' :: '_' :: 'C' :: 'O' :: 'D' :: 'E' :: '_' :: 'B' :: 'L' :: 'O' :: 'C' :: 'K' :: '_' :: '0' :: '_' :: '_' :: []) ++ (' ' :: 's' :: 't' :: 'a' :: 'y' :: '<' :: '/' :: 'p' :: '>' :: [])) from rfl]
    rw [restorePass_family (c :: s')]
    rw [show ("<code>".data : List Char) = ['<', 'c', 'o', 'd', 'e', '>'] from rfl]
    rw [show ("</code>".data : List Char) = ['<', '/', 'c', 'o', 'd', 'e', '>'] from rfl]
    simp
  · rfl

/-- Witness for C1 at a span containing an underscore, an asterisk and a hash
mark. -/
theorem C1_inline_code_restored_witness :
    inlineProtected ("<p>**bold** and `".data ++ "a_*#b".data ++ "` stay</p>".data) =
      "<p><strong>bold</strong> and <code>".data ++ "a_*#b".data ++
        "</code> stay</p>".data :=
  C1_inline_code_restored.1 "a_*#b".data (by decide) (by decide)

end WP
